import Mathlib

/-!
Shallow embedding of the configkit requirement registry and
validation/discovery engine (stackkit, package `configkit`), together
with proofs about its registration, checking, unknown-key scanning,
spec/skeleton generation and redaction behaviour.

Go strings are modelled by Lean `String` (the repository only handles
ASCII names, tags and messages, where Go's byte-wise operations and
Lean's character-wise operations agree).  Go's `reflect.Type` is
modelled by the inductive `GoType` below; struct tags are carried
verbatim on each field.  Maps used only for membership/lookup are
modelled by association lists with last-write-wins lookup, and Go's
`sort` calls by `List.insertionSort` with the same ordering (a stable
sort, as `sort.SliceStable`; for `sort.Strings` the order is total so
stability is irrelevant).
-/

namespace Configkit

/-! ### Go string primitives (strings.Split, TrimSpace, Index, …) -/

/-- `strings.Split(s, sep)` for a one-character separator, on character
lists.  Always returns a non-empty list. -/
def splitOnChar (c : Char) : List Char → List (List Char)
  | [] => [[]]
  | x :: tl =>
    let r := splitOnChar c tl
    if x = c then [] :: r else (x :: r.headI) :: r.tail

/-- Whether `c` is one of the (ASCII) white-space characters Go's
`strings.TrimSpace` strips in the inputs this repository handles. -/
def isSpaceChar (c : Char) : Bool :=
  c = ' ' || c = '\t' || c = '\n' || c = '\r'

/-- `strings.TrimSpace` on character lists. -/
def trimChars (l : List Char) : List Char :=
  ((l.dropWhile isSpaceChar).reverse.dropWhile isSpaceChar).reverse

/-- `strings.TrimSpace`. -/
def goTrim (s : String) : String := String.mk (trimChars s.data)

/-- `strings.Split(s, string(c))`. -/
def goSplit (s : String) (c : Char) : List String :=
  (splitOnChar c s.data).map String.mk

/-- Does `pat` start `l`?  (`strings.HasPrefix` on character lists.) -/
def leadsWith : List Char → List Char → Bool
  | [], _ => true
  | _ :: _, [] => false
  | p :: ps, x :: xs => p == x && leadsWith ps xs

/-- `strings.Index` on character lists: position of the first occurrence
of `pat`, `none` when absent. -/
def idxOf? (pat : List Char) : List Char → Option Nat
  | [] => if pat.isEmpty then some 0 else none
  | x :: tl =>
    if leadsWith pat (x :: tl) then some 0 else (idxOf? pat tl).map (· + 1)

/-- `strings.LastIndex` on character lists. -/
def lastIdxOf? (pat : List Char) : List Char → Option Nat
  | [] => if pat.isEmpty then some 0 else none
  | x :: tl =>
    match lastIdxOf? pat tl with
    | some n => some (n + 1)
    | none => if leadsWith pat (x :: tl) then some 0 else none

/-- `strings.Contains` on character lists. -/
def containsSub (s pat : List Char) : Bool := (idxOf? pat s).isSome

/-- `strings.ToLower` (ASCII). -/
def lowerStr (s : String) : String := String.mk (s.data.map Char.toLower)

/-- `strings.Join(l, ".")`. -/
def dotJoin (l : List String) : String := String.intercalate "." l

/-- The path-extension step used throughout discovery: `key` when the
running path is empty, otherwise `pre + "." + key`. -/
def joinPath (pre key : String) : String :=
  if pre = "" then key else pre ++ "." ++ key

/-- Strict byte-wise lexicographic order on character lists (Go's
`<` on strings; all strings here are ASCII, so bytes = characters). -/
def charsLT : List Char → List Char → Bool
  | [], [] => false
  | [], _ :: _ => true
  | _ :: _, [] => false
  | a :: as, b :: bs =>
    if a.toNat < b.toNat then true
    else if b.toNat < a.toNat then false
    else charsLT as bs

/-- Non-strict byte-wise lexicographic order on character lists. -/
def charsLE : List Char → List Char → Bool
  | [], _ => true
  | _ :: _, [] => false
  | a :: as, b :: bs =>
    if a.toNat < b.toNat then true
    else if b.toNat < a.toNat then false
    else charsLE as bs

/-- Go `a < b` on strings. -/
def strLT (a b : String) : Bool := charsLT a.data b.data

/-- Go `a <= b` on strings (the non-strict order a stable sort by
`a < b` produces). -/
def strLE (a b : String) : Bool := charsLE a.data b.data

/-- `strLE` as a relation, for `List.insertionSort`/`List.Sorted`. -/
def strLEP (a b : String) : Prop := strLE a b = true

instance : DecidableRel strLEP := fun a b =>
  inferInstanceAs (Decidable (strLE a b = true))

/-- `sort.Strings`. -/
def sortStrings (l : List String) : List String :=
  List.insertionSort strLEP l

/-! ### The Go type model

`GoType` models the fragment of `reflect.Type` the engine inspects: a
type's reflect `Kind` string, `Name`, `PkgPath`, pointer indirections,
struct fields with their tags, and free-form map/slice types (whose
element types the engine never inspects; they carry their `String()`
form).  `GoField` carries a struct field's Go name, its `PkgPath`
(non-empty exactly for unexported fields), its `yaml`, `json` and
`validate` tags, and its type. -/

mutual
inductive GoType : Type where
  /-- A non-struct, non-pointer, non-map/slice type: reflect `Name`,
  `PkgPath` and `Kind().String()` (e.g. `"Duration" "time" "int64"`,
  or `"int" "" "int"` for the builtin). -/
  | prim (name pkgPath kind : String) : GoType
  | ptr (elem : GoType) : GoType
  | structT (name pkgPath : String) (fields : List GoField) : GoType
  /-- A free-form map type; carries its `String()` form. -/
  | mapT (str : String) : GoType
  /-- A slice type; carries its `String()` form. -/
  | sliceT (str : String) : GoType

inductive GoField : Type where
  | mk (goName fpkgPath yamlTag jsonTag validateTag : String)
      (ftype : GoType) : GoField
end

def GoField.goName : GoField → String | .mk n _ _ _ _ _ => n

/-- Go `StructField.PkgPath`: non-empty iff the field is unexported. -/
def GoField.fpkgPath : GoField → String | .mk _ p _ _ _ _ => p

def GoField.yamlTag : GoField → String | .mk _ _ y _ _ _ => y

def GoField.jsonTag : GoField → String | .mk _ _ _ j _ _ => j

def GoField.validateTag : GoField → String | .mk _ _ _ _ v _ => v

def GoField.ftype : GoField → GoType | .mk _ _ _ _ _ t => t

/-- Remove all pointer indirections (the `for base.Kind() == reflect.Ptr`
loops). -/
def stripPtr : GoType → GoType
  | .ptr e => stripPtr e
  | t => t

/-- reflect `Name()`. -/
def nameOf : GoType → String
  | .prim n _ _ => n
  | .structT n _ _ => n
  | _ => ""

/-- reflect `PkgPath()`. -/
def pkgPathOf : GoType → String
  | .prim _ p _ => p
  | .structT _ p _ => p
  | _ => ""

/-- reflect `Kind().String()`. -/
def kindOf : GoType → String
  | .prim _ _ k => k
  | .ptr _ => "ptr"
  | .structT _ _ _ => "struct"
  | .mapT _ => "map"
  | .sliceT _ => "slice"

/-- The last `/`-separated segment of an import path (the code's
`parts[len(parts)-1]` after `strings.Split(pkg, "/")`). -/
def lastSeg (pkg : String) : String := (goSplit pkg '/').getLastD ""

/-- The human-readable type name the code builds in `Requirements`,
`Known` and `Check`: `short.Name` when the package path is non-empty and
has a non-empty last segment, otherwise the bare name. -/
def displayName (name pkgPath : String) : String :=
  if pkgPath = "" then name
  else
    let short := lastSeg pkgPath
    if short ≠ "" then short ++ "." ++ name else name

/-- reflect `Type.String()` for the fragment modelled here: named types
render as `short.Name`, pointers prepend `*`, map/slice types carry
their form. -/
def typeString : GoType → String
  | .prim n p _ => displayName n p
  | .ptr e => "*" ++ typeString e
  | .structT n p _ => displayName n p
  | .mapT s => s
  | .sliceT s => s

/-! ### Tag parsing (`parseYAMLTag`, `hasRequired`, `trimPkg`) -/

/-- Go `strings.ToLower(f.Name[:1]) + f.Name[1:]`. -/
def lowerFirst (s : String) : String :=
  match s.data with
  | [] => ""
  | c :: rest => String.mk (c.toLower :: rest)

/-- `parseYAMLTag(tag, f)`: the field's external name and inline flag.
Prefers the yaml tag; falls back to the json tag, then to the
lower-cased field name. -/
def parseYAMLTag (tag : String) (f : GoField) : String × Bool :=
  let tag := goTrim tag
  if tag = "" then
    let j := goTrim f.jsonTag
    if j ≠ "" then
      let parts := goSplit j ','
      if parts.headI ≠ "" ∧ parts.headI ≠ "-" then (parts.headI, false)
      else (lowerFirst f.goName, false)
    else (lowerFirst f.goName, false)
  else
    let parts := goSplit tag ','
    let name := if parts.headI ≠ "" then parts.headI else f.goName
    let inl := parts.tail.any (fun p => goTrim p = "inline")
    (name, inl)

/-- `hasRequired(tag)`: whether the validate tag contains a `required`
token. -/
def hasRequired (tag : String) : Bool :=
  if tag = "" then false
  else (goSplit tag ',').any (fun tok => goTrim tok = "required")

/-- `trimPkg(s)`: the part after the last dot. -/
def trimPkg (s : String) : String :=
  match lastIdxOf? ['.'] s.data with
  | some i => String.mk (s.data.drop (i + 1))
  | none => s

/-! ### The requirement registry -/

/-- The code's `reqEntry`: the registered key, the registered type `t`,
and `base` = `t` with all pointer indirections removed. -/
structure ReqEntry where
  key : String
  t : GoType
  base : GoType

/-- The package-level registry state (`reqSeen`, `reqs`); `reqSeen` is
the dedup set, modelled as a list used only through membership. -/
structure Registry where
  reqSeen : List String
  reqs : List ReqEntry

def Registry.empty : Registry := ⟨[], []⟩

/-- `typeKey(key, t)`: the dedup key `key + "\x00" + t.String()`. -/
def typeKey (key : String) (t : GoType) : String :=
  key ++ "\x00" ++ typeString t

/-- `registerRequirementType(key, tt)` as a state transformer: a no-op
when the `(key, tt.String())` pair was already seen, otherwise appends
one `reqEntry`. -/
def registerRequirementType (key : String) (tt : GoType) (st : Registry) :
    Registry :=
  let base := stripPtr tt
  let k := typeKey key tt
  if k ∈ st.reqSeen then st
  else ⟨st.reqSeen ++ [k], st.reqs ++ [⟨key, tt, base⟩]⟩

/-- The public `Requirement` record.  Go's field `Type` is rendered
`Typ` (`Type` is reserved in Lean). -/
structure Requirement where
  Key : String
  Typ : String
  PkgPath : String
deriving DecidableEq, Repr

/-- The `Requirement` built from one entry in `Requirements()`: the
pointer-stripped base type's display name and package path. -/
def toRequirement (r : ReqEntry) : Requirement :=
  ⟨r.key, displayName (nameOf r.base) (pkgPathOf r.base), pkgPathOf r.base⟩

/-- The `(Key, Type)` ordering `Requirements` sorts by (the non-strict
closure of the code's `SliceStable` less function). -/
def reqLE (a b : Requirement) : Prop :=
  strLT a.Key b.Key = true ∨ (a.Key = b.Key ∧ strLE a.Typ b.Typ = true)

instance : DecidableRel reqLE := fun a b =>
  inferInstanceAs
    (Decidable (strLT a.Key b.Key = true ∨ (a.Key = b.Key ∧ strLE a.Typ b.Typ = true)))

/-- `Requirements()`: one `Requirement` per registered entry, sorted
stably by `(Key, Type)`. -/
def Requirements (st : Registry) : List Requirement :=
  List.insertionSort reqLE (st.reqs.map toRequirement)

/-! ### Field specifications (`Spec`, `walkStruct`) -/

/-- The public `FieldSpec` record (Go field `Type` rendered `Typ`). -/
structure FieldSpec where
  Path : String
  Typ : String
  Required : Bool
deriving DecidableEq, Repr

/-- The leaf type label `walkStruct` records: the concrete type name
when present, otherwise the kind string. -/
def leafKind (base : GoType) : String :=
  if nameOf base ≠ "" then nameOf base else kindOf base

mutual
/-- `walkStruct(t, prefix, out)`: unwraps a single pointer level, then
walks a struct's fields in order (no-op on non-structs). -/
def walkStructGo : GoType → String → List FieldSpec
  | .ptr (.structT _ _ fields), pre => walkFields fields pre
  | .structT _ _ fields, pre => walkFields fields pre
  | _, _ => []

/-- The field loop of `walkStruct`, in declaration order. -/
def walkFields : List GoField → String → List FieldSpec
  | [], _ => []
  | f :: fs, pre => walkField f pre ++ walkFields fs pre

/-- One iteration of `walkStruct`'s loop: skip unexported fields,
resolve the external name and requiredness, extend the path (inline
fields leave it unchanged), then recurse or record a leaf. -/
def walkField : GoField → String → List FieldSpec
  | .mk gn fpkg ytag jtag vtag tf, pre =>
    if fpkg ≠ "" then []
    else
      let ni := parseYAMLTag ytag (.mk gn fpkg ytag jtag vtag tf)
      let required := hasRequired vtag
      let path := if ni.2 then pre else joinPath pre ni.1
      fieldDispatch tf path ni.1 required

/-- The switch on the pointer-stripped field type: structs recurse
(the code calls `walkStruct(base, path)` with `base` already a struct,
which goes straight to the field loop), anything else records one leaf
`FieldSpec` unless the name is `"-"`. -/
def fieldDispatch : GoType → String → String → Bool → List FieldSpec
  | .ptr e, path, name, req => fieldDispatch e path name req
  | .structT _ _ fs, path, _, _ => walkFields fs path
  | base, path, name, req =>
    if name = "-" then [] else [⟨path, leafKind base, req⟩]
end

/-- `Spec(req)`: find the first registered entry whose base type matches
the requirement's package path and (package-trimmed) type name, and
flatten it from the empty prefix. -/
def SpecOf (st : Registry) (req : Requirement) : Except String (List FieldSpec) :=
  match st.reqs.find? (fun r =>
      pkgPathOf r.base == req.PkgPath && nameOf r.base == trimPkg req.Typ) with
  | none => .error ("config: requirement not found for " ++ req.Key ++ " " ++ req.Typ)
  | some r => .ok (walkStructGo r.base "")

/-! ### Raw document values and unknown-key detection -/

/-- A decoded raw YAML subtree (`interface{}` after populate): scalars
carry their printed form, mappings are key/value lists with string keys
(keys of non-string maps pass through `fmt.Sprint` in the code), `null`
stands for the nil / populate-failed case. -/
inductive Yaml : Type where
  | null : Yaml
  | scalar (s : String) : Yaml
  | map (entries : List (String × Yaml)) : Yaml
  | seq (items : List Yaml) : Yaml

/-- The allowed-name table `findUnknownKeys` builds: first the
non-inline exported field names, then — merged on top, one level deep —
the non-inline exported names of each inline field's struct type.
Later writes shadow earlier ones, as with a Go map. -/
def buildAllowed (fields : List GoField) : List (String × GoField) :=
  let step1 := fields.foldl
    (fun (acc : List (String × GoField) × List GoField) f =>
      if f.fpkgPath ≠ "" then acc
      else
        let ni := parseYAMLTag f.yamlTag f
        if ni.1 = "-" then acc
        else if ni.2 then (acc.1, acc.2 ++ [f])
        else (acc.1 ++ [(ni.1, f)], acc.2))
    ([], [])
  step1.2.foldl
    (fun acc f =>
      match stripPtr f.ftype with
      | .structT _ _ subs =>
        subs.foldl
          (fun a2 sf =>
            if sf.fpkgPath ≠ "" then a2
            else
              let ni := parseYAMLTag sf.yamlTag sf
              if ni.1 = "-" ∨ ni.2 then a2 else a2 ++ [(ni.1, sf)])
          acc
      | _ => acc)
    step1.1

/-- Go-map lookup on the allowed table: the last write for a key wins. -/
def lookupLast (m : List (String × GoField)) (k : String) : Option GoField :=
  (m.reverse.find? (fun p => p.1 == k)).map (·.2)

mutual
/-- `findUnknownKeys(y, t, prefix)`: nothing unless the (pointer-
stripped) type is a struct and the raw value is a mapping; otherwise
scan the mapping's keys against the allowed table and return the sorted
unknown paths. -/
def findUnknownKeys : Yaml → GoType → String → List String
  | y, t, pre =>
    match stripPtr t with
    | .structT _ _ fields =>
      match y with
      | .map entries =>
        sortStrings (scanEntries (buildAllowed fields) pre entries)
      | _ => []
    | _ => []

/-- The key loop of `findUnknownKeys`: a key absent from the allowed
table is reported at the extended path; a key bound to a struct-typed
field recurses; map/slice (and other non-struct) fields are not
recursed into. -/
def scanEntries :
    List (String × GoField) → String → List (String × Yaml) → List String
  | _, _, [] => []
  | allowed, pre, (ks, v) :: rest =>
    (match lookupLast allowed ks with
      | none => [joinPath pre ks]
      | some f =>
        match stripPtr f.ftype with
        | .structT n p fs => findUnknownKeys v (.structT n p fs) (joinPath pre ks)
        | _ => []) ++ scanEntries allowed pre rest
end

/-! ### Validation issue formatting (`formatValidationIssues`) -/

/-- `extractFieldAndRule(s)`: scrape `"Field validation for 'X' failed
on the 'rule' tag"` out of one validator message line.  Both results
default to the empty string when a search fails, as with Go's named
return values. -/
def extractFieldAndRule (s : String) : String × String :=
  match idxOf? "Field validation for '".data s.data with
  | none => ("", "")
  | some i =>
    let rest := s.data.drop (i + "Field validation for '".length)
    match idxOf? ['\''] rest with
    | none => ("", "")
    | some j =>
      let field := String.mk (rest.take j)
      match idxOf? "' tag".data rest with
      | none => (field, "")
      | some k =>
        let prev := rest.take k
        match lastIdxOf? ['\''] prev with
        | none => (field, "")
        | some q => (field, String.mk (prev.drop (q + 1)))

/-- Go `FieldByName` restricted to a struct's declared fields (the
registry only registers flat, non-embedded config structs, so promoted
fields do not arise). -/
def fieldByName (t : GoType) (n : String) : Option GoField :=
  match t with
  | .structT _ _ fields => fields.find? (fun f => f.goName == n)
  | _ => none

/-- The namespace-walking loop of `yamlPathFromStructNS`: follow each
segment through `FieldByName`, collecting yaml names of non-inline
fields; give up (returning the joined original segments) when a lookup
fails; stop early when the walk leaves struct territory. -/
def nsLoop (origSegs : List String) : GoType → List String → List String → String
  | _, [], path => dotJoin path
  | cur, name :: rest, path =>
    match fieldByName cur name with
    | none => dotJoin origSegs
    | some f =>
      let ni := parseYAMLTag f.yamlTag f
      let path' := if ni.2 then path else path ++ [ni.1]
      match stripPtr f.ftype with
      | .structT n p fs => nsLoop origSegs (.structT n p fs) rest path'
      | _ => dotJoin path'

/-- `yamlPathFromStructNS(ns, root)`: map a validator struct namespace
to a yaml-style document path (dropping a leading segment equal to the
root type's name). -/
def yamlPathFromStructNS (ns : String) (root : GoType) : String :=
  match stripPtr root with
  | .structT rootName pk fields =>
    if ns = "" then ""
    else
      let segs0 := goSplit ns '.'
      let segs := if segs0.headI = rootName then segs0.tail else segs0
      nsLoop segs (.structT rootName pk fields) segs []
  | _ => ""

/-- One line of `formatValidationIssues`'s loop: empty lines vanish;
lines with an extractable field become `yamlPath: rule` (falling back to
the raw field when the path maps to empty); other lines pass through. -/
def formatLine (root : GoType) (p : String) : List String :=
  let p := goTrim p
  if p = "" then []
  else
    let fr := extractFieldAndRule p
    if fr.1 ≠ "" then
      let y := yamlPathFromStructNS fr.1 root
      let y := if y = "" then fr.1 else y
      [y ++ ": " ++ fr.2]
    else [p]

/-- `formatValidationIssues(err, root)`: split the message on newlines
and format each line. -/
def formatValidationIssues (msg : String) (root : GoType) : List String :=
  (goSplit msg '\n').flatMap (formatLine root)

/-! ### `Check` -/

/-- The external collaborators `Check` consults per `(key, base type)`:
uber-config `Populate` into the typed value (`populateErr`), the
validator run on the populated value (`valErr`, the error's message), and
`Populate` into a raw `interface{}` (`raw`; the code replaces the value
by nil when this populate fails, so a failed raw populate is modelled as
`Yaml.null`). -/
structure Provider where
  populateErr : String → GoType → Option String
  valErr : String → GoType → Option String
  raw : String → Yaml

/-- The public `CheckResult` record (Go field `Type` rendered `Typ`;
`Err` is the error's message, `none` for nil). -/
structure CheckResult where
  Key : String
  Typ : String
  OK : Bool
  Err : Option String
  Issues : List String
  Unknown : List String
deriving DecidableEq, Repr

/-- The body of `Check`'s loop for one snapshotted entry: populate,
then validate (recording formatted issues and promoting the validation
error into `Err`), then scan for unknown keys; `OK` iff no error and no
unknown keys. -/
def checkOne (p : Provider) (r : ReqEntry) : CheckResult :=
  let e1 := p.populateErr r.key r.base
  let errIssues : Option String × List String :=
    match e1 with
    | some m => (some m, [])
    | none =>
      match p.valErr r.key r.base with
      | some m => (some m, formatValidationIssues m r.base)
      | none => (none, [])
  let unknown := findUnknownKeys (p.raw r.key) r.base ""
  let ok := errIssues.1.isNone && unknown.isEmpty
  ⟨r.key, displayName (nameOf r.base) (pkgPathOf r.base), ok,
    errIssues.1, errIssues.2, unknown⟩

/-- The `(Key, Type)` ordering `Check` sorts by. -/
def crLE (a b : CheckResult) : Prop :=
  strLT a.Key b.Key = true ∨ (a.Key = b.Key ∧ strLE a.Typ b.Typ = true)

instance : DecidableRel crLE := fun a b =>
  inferInstanceAs
    (Decidable (strLT a.Key b.Key = true ∨ (a.Key = b.Key ∧ strLE a.Typ b.Typ = true)))

/-- `Check(p)`: snapshot the registry's entries, produce one
`CheckResult` each, and sort stably by `(Key, Type)`. -/
def Check (p : Provider) (st : Registry) : List CheckResult :=
  List.insertionSort crLE (st.reqs.map (checkOne p))

/-! ### YAML skeleton generation (`Skeleton`) -/

/-- `placeholderFor(s)`: the kind-appropriate placeholder literal, with
an inline required marker appended for required fields. -/
def placeholderFor (s : FieldSpec) : String :=
  let t := lowerStr s.Typ
  let ph :=
    if t = "string" then "\"\""
    else if t = "int" ∨ t = "int32" ∨ t = "int64" ∨ t = "uint" ∨
        t = "uint32" ∨ t = "uint64" then "0"
    else if t = "float32" ∨ t = "float64" then "0.0"
    else if t = "bool" then "false"
    else if containsSub t.data "duration".data then "\"1s\""
    else "<value>"
  if s.Required then ph ++ "  # required" else ph

/-- A node of the skeleton tree (the code's `node map[string]interface{}`
whose values are sub-nodes or placeholder strings).  Mappings are
association lists with unique keys. -/
inductive SkNode : Type where
  | tree (entries : List (String × SkNode)) : SkNode
  | leaf (v : String) : SkNode

/-- Go-map write on a skeleton level: replace the key's entry or append. -/
def updA : List (String × SkNode) → String → SkNode → List (String × SkNode)
  | [], k, v => [(k, v)]
  | (k', v') :: rest, k, v =>
    if k' = k then (k, v) :: rest else (k', v') :: updA rest k v

/-- Go-map read on a skeleton level. -/
def lookA (m : List (String × SkNode)) (k : String) : Option SkNode :=
  (m.find? (fun p => p.1 == k)).map (·.2)

/-- The per-spec loop body of `Skeleton`: walk the dot-split path,
creating intermediate levels, and write the placeholder at the leaf.
When an intermediate segment is already bound to a placeholder string,
the assertion `cur[seg].(node)` fails and leaves `cur` nil, so the next
iteration writes into a nil map and panics; `none` models that panic. -/
def insertPath :
    List (String × SkNode) → List String → String → Option (List (String × SkNode))
  | m, [], _ => some m
  | m, [seg], ph => some (updA m seg (.leaf ph))
  | m, seg :: rest, ph =>
    match lookA m seg with
    | none => (insertPath [] rest ph).map (fun sub => updA m seg (.tree sub))
    | some (.tree sub) => (insertPath sub rest ph).map (fun sub2 => updA m seg (.tree sub2))
    | some (.leaf _) => none

/-- The tree-building loop of `Skeleton`: skip empty paths, insert each
spec's placeholder at its dot-split path; a panic (`none`) aborts the
rest of the loop. -/
def buildTree (specs : List FieldSpec) : Option (List (String × SkNode)) :=
  specs.foldl
    (fun acc s =>
      acc.bind (fun root =>
        if s.Path = "" then some root
        else insertPath root (goSplit s.Path '.') (placeholderFor s)))
    (some [])

/-- The entry ordering `renderNode` visits keys in (`sort.Strings` on
the collected keys), also the key order `fmt`'s `%v` prints a map in. -/
def skLE (a b : String × SkNode) : Prop := strLE a.1 b.1 = true

instance : DecidableRel skLE := fun a b =>
  inferInstanceAs (Decidable (strLE a.1 b.1 = true))

mutual
/-- `fmt.Fprint` on a skeleton value, as `renderNode`'s default branch
prints it: a placeholder string verbatim; a sub-tree — whose dynamic
type is the function-local defined type `node` — in `%v`'s map form
`map[k1:v1 k2:v2]` with keys sorted. -/
def goFmt : SkNode → String
  | .leaf s => s
  | .tree entries => "map[" ++ goFmtEntries (List.insertionSort skLE entries) ++ "]"
termination_by n => sizeOf n
decreasing_by
  have h := (List.perm_insertionSort skLE entries).sizeOf_eq_sizeOf
  simp [h]

/-- The space-separated `key:value` entry list inside `%v`'s map form. -/
def goFmtEntries : List (String × SkNode) → String
  | [] => ""
  | [(k, v)] => k ++ ":" ++ goFmt v
  | (k, v) :: rest => k ++ ":" ++ goFmt v ++ " " ++ goFmtEntries rest
termination_by l => sizeOf l
decreasing_by
  all_goals simp
  all_goals omega
end

/-- The emission loop of `renderNode` over the sorted entries.  Go's
type switch `case map[string]interface{}:` requires type identity, and
every stored value has dynamic type `string` or the defined type
`node` — never the unnamed map type — so the recursive branch is dead:
every value, sub-trees included, is printed on one line by the default
branch (`key: value`, with `fmt.Fprint` rendering a sub-tree as
`map[...]`). -/
def renderEntries : List (String × SkNode) → Nat → String
  | [], _ => ""
  | (k, v) :: rest, indent =>
    "".pushn ' ' indent ++ k ++ ": " ++ goFmt v ++ "\n" ++ renderEntries rest indent

/-- `renderNode(b, n, indent)`: emit the level's keys in sorted order
(the code sorts the collected keys; with unique keys, sorting the
entries is the same visit order); each entry prints on one line via the
dead-branch analysis above. -/
def renderNode (m : List (String × SkNode)) (indent : Nat) : String :=
  renderEntries (List.insertionSort skLE m) indent

/-- `Skeleton(req)`: build the skeleton tree from `Spec(req)` and render
it, nested under the requirement's key when non-root; `none` models the
panic `insertPath` propagates for prefix-colliding paths. -/
def Skeleton (st : Registry) (req : Requirement) : Option (Except String String) :=
  match SpecOf st req with
  | .error e => some (.error e)
  | .ok specs =>
    match buildTree specs with
    | none => none
    | some root =>
      if req.Key ≠ "" then some (.ok (req.Key ++ ":\n" ++ renderNode root 2))
      else some (.ok (renderNode root 0))

/-! ### Redaction (`Redact`) -/

/-- A dynamic value as the redactor sees it after `normalize`: string-
keyed mappings, sequences, and opaque non-container leaves (strings,
numbers, …), carrying their printed form. -/
inductive RVal : Type where
  | map (entries : List (String × RVal)) : RVal
  | arr (items : List RVal) : RVal
  | leaf (s : String) : RVal

/-- The fixed secret-indicator word list. -/
def secretWords : List String :=
  ["password", "secret", "token", "apikey", "key", "dsn", "cookie", "bearer"]

/-- `isSecretKey(k)`: the lower-cased key contains some secret word. -/
def isSecretKey (k : String) : Bool :=
  secretWords.any (fun w => containsSub (lowerStr k).data w.data)

mutual
/-- `redact(v)`: mask the values of secret-looking mapping keys
wholesale (no recursion into them), recurse through other mapping
values and through sequences, pass leaves through. -/
def redact : RVal → RVal
  | .map entries => .map (redactEntries entries)
  | .arr items => .arr (redactList items)
  | .leaf s => .leaf s

/-- The mapping loop of `redact`. -/
def redactEntries : List (String × RVal) → List (String × RVal)
  | [] => []
  | (k, v) :: rest =>
    (k, if isSecretKey k then RVal.leaf "***" else redact v) :: redactEntries rest

/-- The sequence loop of `redact`. -/
def redactList : List RVal → List RVal
  | [] => []
  | v :: rest => redact v :: redactList rest
end

mutual
/-- `normalize(v)`: on this model every mapping key is already a
string (the code's `map[interface{}]interface{}` branch prints keys
with `fmt.Sprint`, which is how `RVal.map` keys are represented), so
normalization is the structure-preserving traversal. -/
def normalize : RVal → RVal
  | .map entries => .map (normalizeEntries entries)
  | .arr items => .arr (normalizeList items)
  | .leaf s => .leaf s

/-- The mapping loop of `normalize`. -/
def normalizeEntries : List (String × RVal) → List (String × RVal)
  | [] => []
  | (k, v) :: rest => (k, normalize v) :: normalizeEntries rest

/-- The sequence loop of `normalize`. -/
def normalizeList : List RVal → List RVal
  | [] => []
  | v :: rest => normalize v :: normalizeList rest
end

/-- `Redact(key, v)` (the key parameter is unused in the code). -/
def Redact (_key : String) (v : RVal) : RVal := redact (normalize v)

/-! ### Auxiliary notions used by the theorems below -/

/-- Duplicate-freedom of a level-name list, computably. -/
def nodupO : List (Option String) → Bool
  | [] => true
  | x :: xs => !(xs.contains x) && nodupO xs

/-- A name without a dot (so it occupies exactly one path segment). -/
def dotFree (s : String) : Bool := !(s.data.contains '.')

/-- A well-formed level name: the inline-leaf marker `none`, or a
non-empty dot-free external name. -/
def okName : Option String → Bool
  | none => true
  | some nm => (!(nm = "")) && dotFree nm

mutual
/-- The external names a struct type's level contributes to `walkStruct`
paths: a non-inline field contributes `some name`, an inline struct
field contributes its own level's names (promoted, unprefixed), and an
inline non-struct field contributes the marker `none` (its leaf path is
the bare prefix).  Skipped (`"-"`) leaves contribute nothing. -/
def levelNames : GoType → List (Option String)
  | .ptr e => levelNames e
  | .structT _ _ fields => levelNamesF fields
  | _ => []

def levelNamesF : List GoField → List (Option String)
  | [] => []
  | f :: fs => fieldLevelNames f ++ levelNamesF fs

def fieldLevelNames : GoField → List (Option String)
  | .mk gn fpkg ytag jtag vtag tf =>
    if fpkg ≠ "" then []
    else
      let ni := parseYAMLTag ytag (.mk gn fpkg ytag jtag vtag tf)
      nameDispatch tf ni.1 ni.2

def nameDispatch : GoType → String → Bool → List (Option String)
  | .ptr e, name, inl => nameDispatch e name inl
  | .structT _ _ subs, name, inl => if inl then levelNamesF subs else [some name]
  | _, name, inl => if name = "-" then [] else if inl then [none] else [some name]
end

mutual
/-- Well-namedness of a registrable type: at every level (inline fields
promoted), the contributed names are duplicate-free, non-empty and
dot-free, and every struct subtree is again well-named. -/
def goodT : GoType → Bool
  | .ptr e => goodT e
  | .structT _ _ fields =>
    nodupO (levelNamesF fields) && (levelNamesF fields).all okName &&
      goodFields fields
  | _ => true

def goodFields : List GoField → Bool
  | [] => true
  | f :: fs => goodField f && goodFields fs

def goodField : GoField → Bool
  | .mk _ fpkg _ _ _ tf =>
    if fpkg ≠ "" then true else goodDispatch tf

def goodDispatch : GoType → Bool
  | .ptr e => goodDispatch e
  | .structT _ _ subs =>
    nodupO (levelNamesF subs) && (levelNamesF subs).all okName &&
      goodFields subs
  | _ => true
end

/-- How a `walkStruct` path extends its level's prefix: an inline-leaf
marker contributes the bare prefix, a named entry contributes
`joinPath pre name`, possibly extended by further dotted segments. -/
def pathExt (pre : String) (o : Option String) (p : String) : Prop :=
  match o with
  | none => p = pre
  | some nm => p = joinPath pre nm ∨ ∃ r, p = joinPath pre nm ++ "." ++ r

mutual
/-- Modelled from the spec: the allowed external-name set of a level
with flatten fields "recursively merged, not prefixed" — a non-inline
field contributes its external name, an inline struct field contributes
its level's allowed names recursively.  (Stated for comparison with
`buildAllowed`, which merges one level only.) -/
def specAllowedNames : GoType → List String
  | .ptr e => specAllowedNames e
  | .structT _ _ fields => specAllowedF fields
  | _ => []

def specAllowedF : List GoField → List String
  | [] => []
  | f :: fs => specAllowedField f ++ specAllowedF fs

def specAllowedField : GoField → List String
  | .mk gn fpkg ytag jtag vtag tf =>
    if fpkg ≠ "" then []
    else
      let ni := parseYAMLTag ytag (.mk gn fpkg ytag jtag vtag tf)
      if ni.1 = "-" then []
      else specAllowedDispatch tf ni.1 ni.2

def specAllowedDispatch : GoType → String → Bool → List String
  | .ptr e, name, inl => specAllowedDispatch e name inl
  | .structT _ _ subs, name, inl => if inl then specAllowedF subs else [name]
  | _, name, inl => if inl then [] else [name]
end

/-- The spec's running example type: `{Host string required, Port int}`. -/
def exDbType : GoType :=
  .structT "dbConfig" "example.com/pkg"
    [.mk "Host" "" "host" "" "required" (.prim "string" "" "string"),
     .mk "Port" "" "port" "" "" (.prim "int" "" "int")]

def exDbSt : Registry := registerRequirementType "db" exDbType Registry.empty

def exDbReq : Requirement := ⟨"db", "pkg.dbConfig", "example.com/pkg"⟩

/-- A provider on which populate, validation and the raw decode are all
trivial. -/
def exProviderNone : Provider :=
  ⟨fun _ _ => none, fun _ _ => none, fun _ => Yaml.null⟩

/-- A doubly-flattened type: `Outer` inlines `B`, which inlines `C`,
which declares the external name `x`. -/
def exNestedInlineType : GoType :=
  .structT "Outer" "example.com/pkg"
    [.mk "B" "" ",inline" "" ""
      (.structT "B" "example.com/pkg"
        [.mk "C" "" ",inline" "" ""
          (.structT "C" "example.com/pkg"
            [.mk "X" "" "x" "" "" (.prim "string" "" "string")])])]

/-- A raw subtree binding only the doubly-promoted name `x`. -/
def exYamlX : Yaml := .map [("x", .scalar "1")]

/-- A type whose only field is an excluded (`yaml:"-"`) struct field. -/
def exSkipStructType : GoType :=
  .structT "T" "example.com/pkg"
    [.mk "Skip" "" "-" "" ""
      (.structT "S" "example.com/pkg"
        [.mk "X" "" "x" "" "" (.prim "string" "" "string")])]

/-- A type with an `int8` field (an integer kind the placeholder switch
does not cover). -/
def exInt8Type : GoType :=
  .structT "cfg8" "example.com/pkg"
    [.mk "Port" "" "port" "" "" (.prim "int8" "" "int8")]

def exInt8St : Registry := registerRequirementType "db" exInt8Type Registry.empty

def exInt8Req : Requirement := ⟨"db", "pkg.cfg8", "example.com/pkg"⟩

/-- A type where a flattened subfield's external name collides with a
sibling's: both `A` and the inlined `B.X` are named `x`. -/
def exCollideType : GoType :=
  .structT "T" "example.com/pkg"
    [.mk "A" "" "x" "" "" (.prim "string" "" "string"),
     .mk "B" "" ",inline" "" ""
      (.structT "B" "example.com/pkg"
        [.mk "X" "" "x" "" "" (.prim "string" "" "string")])]

def exSkipSt : Registry := registerRequirementType "db" exSkipStructType Registry.empty

def exSkipReq : Requirement := ⟨"db", "pkg.T", "example.com/pkg"⟩

def exCollideSt : Registry := registerRequirementType "db" exCollideType Registry.empty

def exCollideReq : Requirement := ⟨"db", "pkg.T", "example.com/pkg"⟩

/-- A type with a nested (two-segment) field-spec path:
`server.host` and `server.port`. -/
def exNestedPathType : GoType :=
  .structT "svcConfig" "example.com/pkg"
    [.mk "Server" "" "server" "" ""
      (.structT "serverConfig" "example.com/pkg"
        [.mk "Host" "" "host" "" "" (.prim "string" "" "string"),
         .mk "Port" "" "port" "" "" (.prim "int" "" "int")])]

def exNestedSt : Registry :=
  registerRequirementType "db" exNestedPathType Registry.empty

def exNestedReq : Requirement := ⟨"db", "pkg.svcConfig", "example.com/pkg"⟩

/-! ### Order lemmas for the sort relations -/

theorem charsLE_total : ∀ a b : List Char, charsLE a b = true ∨ charsLE b a = true
  | [], _ => by left; cases ‹List Char› <;> rfl
  | _ :: _, [] => by right; rfl
  | a :: as, b :: bs => by
    rcases Nat.lt_trichotomy a.toNat b.toNat with h | h | h
    · left; simp [charsLE, h]
    · rcases charsLE_total as bs with ih | ih
      · left; simp [charsLE, h, Nat.lt_irrefl, ih]
      · right; simp [charsLE, h, Nat.lt_irrefl, ih]
    · right; simp [charsLE, h]

theorem charsLE_trans : ∀ {a b c : List Char},
    charsLE a b = true → charsLE b c = true → charsLE a c = true
  | [], _, _, _, _ => rfl
  | _ :: _, [], _, h, _ => by cases h
  | _ :: _, _ :: _, [], _, h => by cases h
  | a :: as, b :: bs, c :: cs, h1, h2 => by
    simp only [charsLE] at h1 h2 ⊢
    split_ifs at h1 h2 ⊢ with g1 g2 g3 g4 g5 g6 <;>
      first
        | rfl
        | omega
        | exact charsLE_trans h1 h2

theorem charsLT_trans : ∀ {a b c : List Char},
    charsLT a b = true → charsLT b c = true → charsLT a c = true
  | [], b, c, h1, h2 => by
    cases c with
    | nil => cases b with
      | nil => exact h1
      | cons x xs => cases h2
    | cons y ys => rfl
  | _ :: _, [], _, h, _ => by cases h
  | _ :: _, _ :: _, [], _, h => by cases h
  | a :: as, b :: bs, c :: cs, h1, h2 => by
    simp only [charsLT] at h1 h2 ⊢
    split_ifs at h1 h2 ⊢ with g1 g2 g3 g4 g5 g6 <;>
      first
        | rfl
        | omega
        | exact charsLT_trans h1 h2

theorem charsLT_connex : ∀ {a b : List Char},
    charsLT a b = false → charsLT b a = false → a = b
  | [], [], _, _ => rfl
  | [], _ :: _, h, _ => by cases h
  | _ :: _, [], _, h => by cases h
  | a :: as, b :: bs, h1, h2 => by
    simp only [charsLT] at h1 h2
    split_ifs at h1 h2 with g1 g2 <;> try omega
    have hn : a.toNat = b.toNat := by omega
    have hc : a = b := Char.eq_of_val_eq (UInt32.toNat.inj hn)
    have ht : as = bs := charsLT_connex h1 h2
    rw [hc, ht]

theorem strLT_or_strLT {a b : String} (h : a ≠ b) :
    strLT a b = true ∨ strLT b a = true := by
  by_contra hn
  push_neg at hn
  obtain ⟨h1, h2⟩ := hn
  have e : a.data = b.data :=
    charsLT_connex (Bool.eq_false_iff.mpr h1) (Bool.eq_false_iff.mpr h2)
  exact h (by cases a; cases b; simp_all)

theorem strLE_total (a b : String) : strLE a b = true ∨ strLE b a = true :=
  charsLE_total a.data b.data

theorem strLE_trans {a b c : String} (h1 : strLE a b = true)
    (h2 : strLE b c = true) : strLE a c = true :=
  charsLE_trans h1 h2

theorem strLT_trans {a b c : String} (h1 : strLT a b = true)
    (h2 : strLT b c = true) : strLT a c = true :=
  charsLT_trans h1 h2

instance : IsTotal String strLEP where
  total a b := strLE_total a b

instance : IsTrans String strLEP where
  trans _ _ _ h1 h2 := strLE_trans h1 h2

instance : IsTotal Requirement reqLE where
  total a b := by
    unfold reqLE
    by_cases hk : a.Key = b.Key
    · rcases strLE_total a.Typ b.Typ with h | h
      · exact Or.inl (Or.inr ⟨hk, h⟩)
      · exact Or.inr (Or.inr ⟨hk.symm, h⟩)
    · rcases strLT_or_strLT hk with h | h
      · exact Or.inl (Or.inl h)
      · exact Or.inr (Or.inl h)

instance : IsTrans Requirement reqLE where
  trans a b c hab hbc := by
    unfold reqLE at *
    rcases hab with h1 | ⟨e1, t1⟩
    · rcases hbc with h2 | ⟨e2, _⟩
      · exact Or.inl (strLT_trans h1 h2)
      · exact Or.inl (e2 ▸ h1)
    · rcases hbc with h2 | ⟨e2, t2⟩
      · exact Or.inl (e1 ▸ h2)
      · exact Or.inr ⟨e1.trans e2, strLE_trans t1 t2⟩

instance : IsTotal CheckResult crLE where
  total a b := by
    unfold crLE
    by_cases hk : a.Key = b.Key
    · rcases strLE_total a.Typ b.Typ with h | h
      · exact Or.inl (Or.inr ⟨hk, h⟩)
      · exact Or.inr (Or.inr ⟨hk.symm, h⟩)
    · rcases strLT_or_strLT hk with h | h
      · exact Or.inl (Or.inl h)
      · exact Or.inr (Or.inl h)

instance : IsTrans CheckResult crLE where
  trans a b c hab hbc := by
    unfold crLE at *
    rcases hab with h1 | ⟨e1, t1⟩
    · rcases hbc with h2 | ⟨e2, _⟩
      · exact Or.inl (strLT_trans h1 h2)
      · exact Or.inl (e2 ▸ h1)
    · rcases hbc with h2 | ⟨e2, t2⟩
      · exact Or.inl (e1 ▸ h2)
      · exact Or.inr ⟨e1.trans e2, strLE_trans t1 t2⟩

instance : IsTotal (String × SkNode) skLE where
  total a b := strLE_total a.1 b.1

instance : IsTrans (String × SkNode) skLE where
  trans _ _ _ h1 h2 := strLE_trans h1 h2

/-! ### Registration lemmas -/

theorem stringDataInj {a b : String} (h : a.data = b.data) : a = b := by
  cases a; cases b; simp_all

theorem typeKey_inj_sig {k : String} {t1 t2 : GoType}
    (h : typeKey k t1 = typeKey k t2) : typeString t1 = typeString t2 := by
  unfold typeKey at h
  have hd := congrArg String.data h
  simp only [String.data_append] at hd
  exact stringDataInj (List.append_cancel_left hd)

theorem typeKey_ptr_ne (k : String) (t : GoType) :
    typeKey k t ≠ typeKey k (GoType.ptr t) := by
  intro h
  have := typeKey_inj_sig h
  have hlen := congrArg (fun s => s.data.length) this
  simp only [typeString, String.data_append] at hlen
  simp at hlen

theorem register_noop {k : String} {t : GoType} {st : Registry}
    (h : typeKey k t ∈ st.reqSeen) : registerRequirementType k t st = st := by
  simp only [registerRequirementType]
  simp [h]

theorem register_seen_mem (k : String) (t : GoType) (st : Registry) :
    typeKey k t ∈ (registerRequirementType k t st).reqSeen := by
  simp only [registerRequirementType]
  split
  · assumption
  · simp

/-- C2: requirement registration is idempotent and deduplicated by the
`(key, signature)` pair — registering the same key and type twice is a
no-op after the first and leaves exactly one entry in `Requirements()`,
while two types with different signatures yield two entries. -/
theorem register_dedup_by_key_and_signature
    (st : Registry) (k : String) (t t1 t2 : GoType) :
    registerRequirementType k t (registerRequirementType k t st) =
      registerRequirementType k t st ∧
    Requirements
        (registerRequirementType k t (registerRequirementType k t Registry.empty)) =
      [toRequirement ⟨k, t, stripPtr t⟩] ∧
    (typeString t1 ≠ typeString t2 →
      (Requirements
          (registerRequirementType k t2
            (registerRequirementType k t1 Registry.empty))).length = 2) := by
  refine ⟨?_, ?_, ?_⟩
  · exact register_noop (register_seen_mem k t st)
  · have h1 : registerRequirementType k t Registry.empty =
        ⟨[typeKey k t], [⟨k, t, stripPtr t⟩]⟩ := by
      simp [registerRequirementType, Registry.empty]
    rw [h1]
    have h2 : registerRequirementType k t ⟨[typeKey k t], [⟨k, t, stripPtr t⟩]⟩ =
        ⟨[typeKey k t], [⟨k, t, stripPtr t⟩]⟩ := by
      simp [registerRequirementType]
    rw [h2]
    simp [Requirements, List.insertionSort, List.orderedInsert]
  · intro hne
    have hkne : typeKey k t1 ≠ typeKey k t2 := fun h => hne (typeKey_inj_sig h)
    have h1 : registerRequirementType k t1 Registry.empty =
        ⟨[typeKey k t1], [⟨k, t1, stripPtr t1⟩]⟩ := by
      simp [registerRequirementType, Registry.empty]
    have h2 : registerRequirementType k t2 ⟨[typeKey k t1], [⟨k, t1, stripPtr t1⟩]⟩ =
        ⟨[typeKey k t1, typeKey k t2],
          [⟨k, t1, stripPtr t1⟩, ⟨k, t2, stripPtr t2⟩]⟩ := by
      simp [registerRequirementType, Ne.symm hkne]
    rw [h1, h2]
    simp [Requirements, List.length_insertionSort]
    split <;> rfl

/-- C10: registration deduplicates by the registered type's string form
(including pointer indirection) while `Requirements()` reports the
pointer-stripped base type, so registering `(k, T)` and then `(k, *T)`
produces two entries with identical `Key`, `Type` and `PkgPath`. -/
theorem register_ptr_yields_two_identical_requirements (k : String) (t : GoType) :
    Requirements
        (registerRequirementType k (GoType.ptr t)
          (registerRequirementType k t Registry.empty)) =
      [toRequirement ⟨k, t, stripPtr t⟩, toRequirement ⟨k, t, stripPtr t⟩] := by
  have h1 : registerRequirementType k t Registry.empty =
      ⟨[typeKey k t], [⟨k, t, stripPtr t⟩]⟩ := by
    simp [registerRequirementType, Registry.empty]
  have h2 : registerRequirementType k (GoType.ptr t)
        ⟨[typeKey k t], [⟨k, t, stripPtr t⟩]⟩ =
      ⟨[typeKey k t, typeKey k (GoType.ptr t)],
        [⟨k, t, stripPtr t⟩, ⟨k, GoType.ptr t, stripPtr (GoType.ptr t)⟩]⟩ := by
    simp [registerRequirementType, Ne.symm (typeKey_ptr_ne k t)]
  rw [h1, h2]
  have hbase : stripPtr (GoType.ptr t) = stripPtr t := rfl
  simp only [Requirements, List.map, toRequirement, hbase]
  simp [List.insertionSort, List.orderedInsert]

/-! ### Sortedness and determinism (C3) -/

/-- C3: `Requirements()` and `Check()` return output sorted by
`(key, typeName)`, and repeated `Requirements()` calls on the same
registry contents return identical output. -/
theorem requirements_and_check_sorted_deterministic
    (st st' : Registry) (p : Provider) (h : st.reqs = st'.reqs) :
    List.Sorted reqLE (Requirements st) ∧
    List.Sorted crLE (Check p st) ∧
    Requirements st = Requirements st' := by
  refine ⟨List.sorted_insertionSort reqLE _, List.sorted_insertionSort crLE _, ?_⟩
  unfold Requirements
  rw [h]

/-! ### Redaction (C8) -/

theorem redactEntries_eq_map (l : List (String × RVal)) :
    redactEntries l =
      l.map (fun kv =>
        (kv.1, if isSecretKey kv.1 then RVal.leaf "***" else redact kv.2)) := by
  induction l with
  | nil => rfl
  | cons kv rest ih => cases kv; rw [redactEntries, ih]; rfl

theorem redactList_eq_map (l : List RVal) : redactList l = l.map redact := by
  induction l with
  | nil => rfl
  | cons v rest ih => rw [redactList, ih]; rfl

mutual
theorem normalize_eq_id : ∀ v : RVal, normalize v = v
  | .map entries => by rw [normalize, normalizeEntries_eq_id entries]
  | .arr items => by rw [normalize, normalizeList_eq_id items]
  | .leaf s => rfl

theorem normalizeEntries_eq_id : ∀ l : List (String × RVal), normalizeEntries l = l
  | [] => rfl
  | (k, v) :: rest => by
    rw [normalizeEntries, normalize_eq_id v, normalizeEntries_eq_id rest]

theorem normalizeList_eq_id : ∀ l : List RVal, normalizeList l = l
  | [] => rfl
  | v :: rest => by rw [normalizeList, normalize_eq_id v, normalizeList_eq_id rest]
end

/-- C8: `Redact` masks the value of every mapping entry whose key
case-insensitively contains a secret word, wholesale and without
recursing into it; it recurses into all other mapping values and into
sequences, passes non-container leaves through unchanged, never fails
(it is a total function), and leaves siblings such as `"user"` next to
a redacted `"password"` untouched. -/
theorem redact_masks_secret_keys_only
    (key s : String) (v : RVal) (items : List RVal)
    (entries : List (String × RVal)) :
    Redact key v = redact v ∧
    redact (RVal.leaf s) = RVal.leaf s ∧
    redact (RVal.arr items) = RVal.arr (items.map redact) ∧
    redact (RVal.map entries) =
      RVal.map (entries.map (fun kv =>
        (kv.1, if isSecretKey kv.1 then RVal.leaf "***" else redact kv.2))) ∧
    isSecretKey "password" = true ∧
    isSecretKey "user" = false ∧
    Redact ""
        (RVal.map [("database",
          RVal.map [("user", RVal.leaf "svc"), ("password", RVal.leaf "secret")])]) =
      RVal.map [("database",
        RVal.map [("user", RVal.leaf "svc"), ("password", RVal.leaf "***")])] := by
  refine ⟨?_, rfl, ?_, ?_, rfl, rfl, rfl⟩
  · unfold Redact
    rw [normalize_eq_id]
  · rw [redact, redactList_eq_map]
  · rw [redact, redactEntries_eq_map]

/-! ### Check: one result per requirement (C1) -/

/-- C1: for every provider, `Check` yields exactly one `CheckResult` per
snapshotted requirement — never raising or stopping early, a bind
failure being recorded as that result's `Err` — and a result is `OK`
exactly when populate succeeded, no validation issue was recorded and
no unknown key was found.  (The hypothesis `hval` states that the
external validator's error messages format to at least one issue line,
which holds for every non-blank message.) -/
theorem check_one_result_per_requirement
    (p : Provider) (st : Registry)
    (hval : ∀ k t m, p.valErr k t = some m → formatValidationIssues m t ≠ []) :
    (Check p st).length = st.reqs.length ∧
    (∀ cr ∈ Check p st, ∃ r ∈ st.reqs, cr = checkOne p r) ∧
    (∀ r ∈ st.reqs, checkOne p r ∈ Check p st) ∧
    (∀ r ∈ st.reqs,
      ((checkOne p r).OK = true ↔
        (p.populateErr r.key r.base = none ∧ (checkOne p r).Issues = [] ∧
          (checkOne p r).Unknown = []))) ∧
    (∀ r ∈ st.reqs, ∀ m, p.populateErr r.key r.base = some m →
      (checkOne p r).Err = some m) := by
  refine ⟨?_, ?_, ?_, ?_, ?_⟩
  · simp [Check, List.length_insertionSort]
  · intro cr hcr
    rw [Check, List.mem_insertionSort] at hcr
    obtain ⟨r, hr, he⟩ := List.mem_map.mp hcr
    exact ⟨r, hr, he.symm⟩
  · intro r hr
    rw [Check, List.mem_insertionSort]
    exact List.mem_map_of_mem _ hr
  · intro r _
    rcases he : p.populateErr r.key r.base with _ | m
    · rcases hv : p.valErr r.key r.base with _ | m
      · simp [checkOne, he, hv, List.isEmpty_iff]
      · simp [checkOne, he, hv]
        intro h
        exact absurd h (hval _ _ _ hv)
    · simp [checkOne, he]
  · intro r _ m he
    simp [checkOne, he]

/-! ### Spec flattening (C6, C9) -/

theorem walkFields_eq_flatMap (l : List GoField) (pre : String) :
    walkFields l pre = l.flatMap (fun f => walkField f pre) := by
  induction l with
  | nil => rfl
  | cons f fs ih => rw [walkFields, ih]; rfl

theorem fieldDispatch_stripPtr :
    ∀ (t : GoType) (path name : String) (req : Bool),
      fieldDispatch t path name req = fieldDispatch (stripPtr t) path name req
  | .ptr e, path, name, req => by
    rw [fieldDispatch, stripPtr]
    exact fieldDispatch_stripPtr e path name req
  | .prim _ _ _, _, _, _ => rfl
  | .structT _ _ _, _, _, _ => rfl
  | .mapT _, _, _, _ => rfl
  | .sliceT _, _, _, _ => rfl

theorem stripPtr_not_ptr : ∀ t : GoType, ∀ e, stripPtr t ≠ GoType.ptr e
  | .ptr x => by rw [stripPtr]; exact stripPtr_not_ptr x
  | .prim _ _ _ => fun _ h => GoType.noConfusion h
  | .structT _ _ _ => fun _ h => GoType.noConfusion h
  | .mapT _ => fun _ h => GoType.noConfusion h
  | .sliceT _ => fun _ h => GoType.noConfusion h

/-- C6 (amended): `Spec` flattens depth-first — one `FieldSpec` per
non-struct leaf, flatten (inline) fields contributing no path segment,
excluded (`yaml:"-"`) *leaf* fields omitted — but an excluded
struct-typed field is still recursed into, its `-` name contributing a
path segment. -/
theorem spec_flatten_characterization :
    (∀ (n pk : String) (fields : List GoField) (pre : String),
      walkStructGo (GoType.structT n pk fields) pre =
        fields.flatMap (fun f => walkField f pre)) ∧
    (∀ (f : GoField) (pre : String), f.fpkgPath ≠ "" → walkField f pre = []) ∧
    (∀ (f : GoField) (pre name : String) (n2 p2 : String) (fs2 : List GoField),
      f.fpkgPath = "" → parseYAMLTag f.yamlTag f = (name, true) →
      stripPtr f.ftype = GoType.structT n2 p2 fs2 →
      walkField f pre = walkFields fs2 pre) ∧
    (∀ (f : GoField) (pre name : String) (n2 p2 : String) (fs2 : List GoField),
      f.fpkgPath = "" → parseYAMLTag f.yamlTag f = (name, false) →
      stripPtr f.ftype = GoType.structT n2 p2 fs2 →
      walkField f pre = walkFields fs2 (joinPath pre name)) ∧
    (∀ (f : GoField) (pre : String) (inl : Bool),
      f.fpkgPath = "" → parseYAMLTag f.yamlTag f = ("-", inl) →
      (∀ n2 p2 fs2, stripPtr f.ftype ≠ GoType.structT n2 p2 fs2) →
      walkField f pre = []) ∧
    (∀ (f : GoField) (pre name : String) (inl : Bool),
      f.fpkgPath = "" → parseYAMLTag f.yamlTag f = (name, inl) → name ≠ "-" →
      (∀ n2 p2 fs2, stripPtr f.ftype ≠ GoType.structT n2 p2 fs2) →
      walkField f pre =
        [⟨if inl then pre else joinPath pre name,
          leafKind (stripPtr f.ftype), hasRequired f.validateTag⟩]) := by
  refine ⟨?_, ?_, ?_, ?_, ?_, ?_⟩
  · intro n pk fields pre
    rw [walkStructGo, walkFields_eq_flatMap]
  · intro f pre h
    cases f with
    | mk gn fpkg ytag jtag vtag tf =>
      simp only [GoField.fpkgPath] at h
      simp [walkField, h]
  · intro f pre name n2 p2 fs2 hexp hparse hstrip
    cases f with
    | mk gn fpkg ytag jtag vtag tf =>
      simp only [GoField.fpkgPath] at hexp
      subst hexp
      simp only [GoField.yamlTag, GoField.ftype] at hparse hstrip
      simp [walkField, hparse]
      rw [fieldDispatch_stripPtr, hstrip]
      rfl
  · intro f pre name n2 p2 fs2 hexp hparse hstrip
    cases f with
    | mk gn fpkg ytag jtag vtag tf =>
      simp only [GoField.fpkgPath] at hexp
      subst hexp
      simp only [GoField.yamlTag, GoField.ftype] at hparse hstrip
      simp [walkField, hparse]
      rw [fieldDispatch_stripPtr, hstrip]
      rfl
  · intro f pre inl hexp hparse hnstruct
    cases f with
    | mk gn fpkg ytag jtag vtag tf =>
      simp only [GoField.fpkgPath] at hexp
      subst hexp
      simp only [GoField.yamlTag] at hparse
      simp only [GoField.ftype] at hnstruct
      simp [walkField, hparse]
      rw [fieldDispatch_stripPtr]
      cases hb : stripPtr tf with
      | prim nm pk kd => split <;> simp [fieldDispatch]
      | ptr e => exact absurd hb (stripPtr_not_ptr tf e)
      | structT n2 p2 fs2 => exact absurd hb (hnstruct _ _ _)
      | mapT ms => split <;> simp [fieldDispatch]
      | sliceT ss => split <;> simp [fieldDispatch]
  · intro f pre name inl hexp hparse hname hnstruct
    cases f with
    | mk gn fpkg ytag jtag vtag tf =>
      simp only [GoField.fpkgPath] at hexp
      subst hexp
      simp only [GoField.yamlTag] at hparse
      simp only [GoField.ftype] at hnstruct
      simp only [GoField.ftype, GoField.validateTag]
      simp [walkField, hparse]
      rw [fieldDispatch_stripPtr]
      cases hb : stripPtr tf with
      | prim nm pk kd => split <;> simp [fieldDispatch, hname]
      | ptr e => exact absurd hb (stripPtr_not_ptr tf e)
      | structT n2 p2 fs2 => exact absurd hb (hnstruct _ _ _)
      | mapT ms => split <;> simp [fieldDispatch, hname]
      | sliceT ss => split <;> simp [fieldDispatch, hname]

/-! ### Path disjointness machinery (C9) -/

theorem nodupO_iff {l : List (Option String)} : nodupO l = true ↔ l.Nodup := by
  induction l with
  | nil => simp [nodupO]
  | cons x xs ih => simp [nodupO, ih]

theorem dotSegInj : ∀ (a : List Char), ∀ (b x y : List Char),
    '.' ∉ a → '.' ∉ b →
    (x = [] ∨ ∃ u, x = '.' :: u) → (y = [] ∨ ∃ u, y = '.' :: u) →
    a ++ x = b ++ y → a = b
  | [], b, x, y, _, hb, hx, _, h => by
    cases b with
    | nil => rfl
    | cons c bs =>
      simp at h
      rcases hx with rfl | ⟨u, rfl⟩
      · cases h
      · rw [List.cons.injEq] at h
        exact absurd (h.1 ▸ List.mem_cons_self c bs) (h.1 ▸ hb)
  | a :: as, b, x, y, ha, hb, hx, hy, h => by
    cases b with
    | nil =>
      simp at h
      rcases hy with rfl | ⟨u, rfl⟩
      · cases h
      · rw [List.cons.injEq] at h
        exact absurd (List.mem_cons_self a as) (h.1 ▸ ha)
    | cons c bs =>
      rw [List.cons_append, List.cons_append, List.cons.injEq] at h
      have := dotSegInj as bs x y (fun hm => ha (List.mem_cons_of_mem _ hm))
        (fun hm => hb (List.mem_cons_of_mem _ hm)) hx hy h.2
      rw [h.1, this]

theorem strNeEmpty {s : String} (h : s ≠ "") : s.data ≠ [] := by
  intro hd
  exact h (stringDataInj (by simp [hd]))

theorem joinPath_data (pre nm : String) :
    (joinPath pre nm).data =
      (if pre = "" then [] else pre.data ++ ['.']) ++ nm.data := by
  unfold joinPath
  split
  · simp_all
  · simp_all [String.data_append]

theorem pathExt_some_data {pre nm p : String} (h : pathExt pre (some nm) p) :
    ∃ x, p.data = (if pre = "" then [] else pre.data ++ ['.']) ++ (nm.data ++ x) ∧
      (x = [] ∨ ∃ u, x = '.' :: u) := by
  rcases h with rfl | ⟨r, rfl⟩
  · exact ⟨[], by simp [joinPath_data], Or.inl rfl⟩
  · refine ⟨'.' :: r.data, ?_, Or.inr ⟨r.data, rfl⟩⟩
    simp [String.data_append, joinPath_data]

theorem dotFree_not_mem {nm : String} (h : dotFree nm = true) : '.' ∉ nm.data := by
  simpa [dotFree] using h

theorem pathExt_inj {pre p : String} {o1 o2 : Option String}
    (ok1 : okName o1 = true) (ok2 : okName o2 = true)
    (h1 : pathExt pre o1 p) (h2 : pathExt pre o2 p) : o1 = o2 := by
  match o1, o2 with
  | none, none => rfl
  | none, some nm =>
    exfalso
    have hp : p = pre := h1
    obtain ⟨x, hx, _⟩ := pathExt_some_data h2
    have hnm : nm ≠ "" := by
      simp [okName] at ok2
      exact ok2.1
    have hne := strNeEmpty hnm
    rw [hp] at hx
    by_cases hpre : pre = ""
    · subst hpre
      simp at hx
      exact hne hx.1
    · rw [if_neg hpre] at hx
      have hlen := congrArg List.length hx
      simp at hlen
  | some nm, none =>
    exfalso
    have hp : p = pre := h2
    obtain ⟨x, hx, _⟩ := pathExt_some_data h1
    have hnm : nm ≠ "" := by
      simp [okName] at ok1
      exact ok1.1
    have hne := strNeEmpty hnm
    rw [hp] at hx
    by_cases hpre : pre = ""
    · subst hpre
      simp at hx
      exact hne hx.1
    · rw [if_neg hpre] at hx
      have hlen := congrArg List.length hx
      simp at hlen
  | some nm1, some nm2 =>
    obtain ⟨x, hx, hxs⟩ := pathExt_some_data h1
    obtain ⟨y, hy, hys⟩ := pathExt_some_data h2
    simp [okName] at ok1 ok2
    have hcancel : nm1.data ++ x = nm2.data ++ y :=
      List.append_cancel_left (hx ▸ hy)
    have : nm1.data = nm2.data :=
      dotSegInj nm1.data nm2.data x y (dotFree_not_mem ok1.2)
        (dotFree_not_mem ok2.2) hxs hys hcancel
    rw [stringDataInj this]

theorem sizeOf_stripPtr_le : ∀ t : GoType, sizeOf (stripPtr t) ≤ sizeOf t
  | .ptr e => by
    rw [stripPtr]
    have := sizeOf_stripPtr_le e
    simp only [GoType.ptr.sizeOf_spec]
    omega
  | .prim _ _ _ => Nat.le_refl _
  | .structT _ _ _ => Nat.le_refl _
  | .mapT _ => Nat.le_refl _
  | .sliceT _ => Nat.le_refl _

theorem goodDispatch_stripPtr : ∀ t : GoType, goodDispatch t = goodDispatch (stripPtr t)
  | .ptr e => by rw [goodDispatch, stripPtr]; exact goodDispatch_stripPtr e
  | .prim _ _ _ => rfl
  | .structT _ _ _ => rfl
  | .mapT _ => rfl
  | .sliceT _ => rfl

theorem nameDispatch_stripPtr : ∀ (t : GoType) (name : String) (inl : Bool),
    nameDispatch t name inl = nameDispatch (stripPtr t) name inl
  | .ptr e, name, inl => by
    rw [nameDispatch, stripPtr]
    exact nameDispatch_stripPtr e name inl
  | .prim _ _ _, _, _ => rfl
  | .structT _ _ _, _, _ => rfl
  | .mapT _, _, _ => rfl
  | .sliceT _, _, _ => rfl

theorem joinPath_ne_empty {pre nm : String} (h : nm ≠ "") : joinPath pre nm ≠ "" := by
  intro he
  have := congrArg List.length (congrArg String.data he)
  rw [joinPath_data] at this
  have hne := strNeEmpty h
  by_cases hpre : pre = ""
  · rw [if_pos hpre] at this
    simp at this
    exact hne (List.length_eq_zero.mp (by simpa using this))
  · rw [if_neg hpre] at this
    simp at this

theorem joinPath_of_ne {pre nm : String} (h : pre ≠ "") :
    joinPath pre nm = pre ++ "." ++ nm := by
  simp [joinPath, h]

theorem walkField_exported (gn ytag jtag vtag : String) (tf : GoType) (pre : String) :
    walkField (.mk gn "" ytag jtag vtag tf) pre =
      fieldDispatch (stripPtr tf)
        (if (parseYAMLTag ytag (.mk gn "" ytag jtag vtag tf)).2 then pre
         else joinPath pre (parseYAMLTag ytag (.mk gn "" ytag jtag vtag tf)).1)
        (parseYAMLTag ytag (.mk gn "" ytag jtag vtag tf)).1
        (hasRequired vtag) := by
  rw [walkField, ← fieldDispatch_stripPtr]
  simp

theorem fieldLevelNames_exported (gn ytag jtag vtag : String) (tf : GoType) :
    fieldLevelNames (.mk gn "" ytag jtag vtag tf) =
      nameDispatch (stripPtr tf)
        (parseYAMLTag ytag (.mk gn "" ytag jtag vtag tf)).1
        (parseYAMLTag ytag (.mk gn "" ytag jtag vtag tf)).2 := by
  rw [fieldLevelNames, ← nameDispatch_stripPtr]
  simp

theorem goodField_exported (gn ytag jtag vtag : String) (tf : GoType) :
    goodField (.mk gn "" ytag jtag vtag tf) = goodDispatch (stripPtr tf) := by
  rw [goodField, ← goodDispatch_stripPtr]
  simp

theorem walkField_paths_good (N : Nat)
    (ih : ∀ l : List GoField, sizeOf l ≤ N → ∀ pre : String,
      nodupO (levelNamesF l) = true →
      (levelNamesF l).all okName = true →
      goodFields l = true →
      ((walkFields l pre).map FieldSpec.Path).Nodup ∧
      (∀ p ∈ (walkFields l pre).map FieldSpec.Path,
        ∃ o ∈ levelNamesF l, pathExt pre o p))
    (f : GoField) (hsz : sizeOf f ≤ N) (pre : String)
    (hnd : nodupO (fieldLevelNames f) = true)
    (hok : (fieldLevelNames f).all okName = true)
    (hgood : goodField f = true) :
    ((walkField f pre).map FieldSpec.Path).Nodup ∧
    (∀ p ∈ (walkField f pre).map FieldSpec.Path,
      ∃ o ∈ fieldLevelNames f, pathExt pre o p) := by
  obtain ⟨gn, fpkg, ytag, jtag, vtag, tf⟩ := f
  by_cases hfp : fpkg = ""
  · subst hfp
    rcases hpt : parseYAMLTag ytag (.mk gn "" ytag jtag vtag tf) with ⟨name, inl⟩
    rw [walkField_exported]
    rw [fieldLevelNames_exported] at hnd hok ⊢
    rw [goodField_exported] at hgood
    rw [hpt] at hnd hok ⊢
    dsimp only at hnd hok ⊢
    generalize hb : stripPtr tf = tb at hnd hok hgood ⊢
    cases tb with
    | ptr e => exact absurd hb (stripPtr_not_ptr tf e)
    | structT n2 p2 fs2 =>
      rw [goodDispatch, Bool.and_eq_true, Bool.and_eq_true] at hgood
      have hsz2 : sizeOf fs2 ≤ N := by
        have h1 := sizeOf_stripPtr_le tf
        rw [hb] at h1
        simp only [GoType.structT.sizeOf_spec] at h1
        simp only [GoField.mk.sizeOf_spec] at hsz
        omega
      cases inl with
      | true =>
        simp only [nameDispatch, if_pos] at hnd hok ⊢
        simp only [fieldDispatch, if_pos]
        exact ih fs2 hsz2 pre hnd hok hgood.2
      | false =>
        simp only [nameDispatch, Bool.false_eq_true, if_false] at hnd hok ⊢
        simp only [fieldDispatch, Bool.false_eq_true, if_false]
        have hsub := ih fs2 hsz2 (joinPath pre name) hgood.1.1 hgood.1.2 hgood.2
        refine ⟨hsub.1, ?_⟩
        intro p hp
        obtain ⟨o', ho', hext⟩ := hsub.2 p hp
        refine ⟨some name, by simp, ?_⟩
        have hnm : name ≠ "" := by
          simp [okName] at hok
          exact hok.1
        have hjne : joinPath pre name ≠ "" := joinPath_ne_empty hnm
        cases o' with
        | none => exact Or.inl hext
        | some nm' =>
          rcases hext with hext | ⟨r2, hext⟩
          · rw [joinPath_of_ne hjne] at hext
            exact Or.inr ⟨nm', hext⟩
          · rw [joinPath_of_ne hjne] at hext
            refine Or.inr ⟨nm' ++ "." ++ r2, ?_⟩
            rw [hext]
            simp [String.append_assoc]
    | prim nm2 pk2 kd2 =>
      by_cases hdash : name = "-"
      · subst hdash
        simp only [nameDispatch, if_pos rfl] at hnd hok ⊢
        simp only [fieldDispatch, if_pos rfl]
        simp
      · simp only [nameDispatch, if_neg hdash] at hnd hok ⊢
        simp only [fieldDispatch, if_neg hdash]
        cases inl with
        | true =>
          simp only [if_pos rfl] at hnd hok ⊢
          refine ⟨by simp, ?_⟩
          intro p hp
          simp at hp
          exact ⟨none, by simp, by simp [pathExt, hp]⟩
        | false =>
          simp only [Bool.false_eq_true, if_false] at hnd hok ⊢
          refine ⟨by simp, ?_⟩
          intro p hp
          simp at hp
          exact ⟨some name, by simp, Or.inl (by simp [hp])⟩
    | mapT ms =>
      by_cases hdash : name = "-"
      · subst hdash
        simp only [nameDispatch, if_pos rfl] at hnd hok ⊢
        simp only [fieldDispatch, if_pos rfl]
        simp
      · simp only [nameDispatch, if_neg hdash] at hnd hok ⊢
        simp only [fieldDispatch, if_neg hdash]
        cases inl with
        | true =>
          simp only [if_pos rfl] at hnd hok ⊢
          refine ⟨by simp, ?_⟩
          intro p hp
          simp at hp
          exact ⟨none, by simp, by simp [pathExt, hp]⟩
        | false =>
          simp only [Bool.false_eq_true, if_false] at hnd hok ⊢
          refine ⟨by simp, ?_⟩
          intro p hp
          simp at hp
          exact ⟨some name, by simp, Or.inl (by simp [hp])⟩
    | sliceT ss =>
      by_cases hdash : name = "-"
      · subst hdash
        simp only [nameDispatch, if_pos rfl] at hnd hok ⊢
        simp only [fieldDispatch, if_pos rfl]
        simp
      · simp only [nameDispatch, if_neg hdash] at hnd hok ⊢
        simp only [fieldDispatch, if_neg hdash]
        cases inl with
        | true =>
          simp only [if_pos rfl] at hnd hok ⊢
          refine ⟨by simp, ?_⟩
          intro p hp
          simp at hp
          exact ⟨none, by simp, by simp [pathExt, hp]⟩
        | false =>
          simp only [Bool.false_eq_true, if_false] at hnd hok ⊢
          refine ⟨by simp, ?_⟩
          intro p hp
          simp at hp
          exact ⟨some name, by simp, Or.inl (by simp [hp])⟩
  · have h1 : walkField (.mk gn fpkg ytag jtag vtag tf) pre = [] := by
      simp [walkField, hfp]
    rw [h1]
    simp

theorem walk_paths_good :
    ∀ (N : Nat) (l : List GoField), sizeOf l ≤ N → ∀ pre : String,
    nodupO (levelNamesF l) = true →
    (levelNamesF l).all okName = true →
    goodFields l = true →
    ((walkFields l pre).map FieldSpec.Path).Nodup ∧
    (∀ p ∈ (walkFields l pre).map FieldSpec.Path,
      ∃ o ∈ levelNamesF l, pathExt pre o p) := by
  intro N
  induction N with
  | zero =>
    intro l hsz
    exfalso
    cases l <;> simp at hsz
  | succ N ih =>
    intro l hsz pre hnd hok hgood
    cases l with
    | nil => simp [walkFields, levelNamesF]
    | cons f fs =>
      rw [levelNamesF] at hnd hok
      rw [walkFields, goodFields, Bool.and_eq_true] at *
      rw [List.all_append, Bool.and_eq_true] at hok
      have hndP := nodupO_iff.mp hnd
      rw [List.nodup_append] at hndP
      have hndA : nodupO (fieldLevelNames f) = true := nodupO_iff.mpr hndP.1
      have hndB : nodupO (levelNamesF fs) = true := nodupO_iff.mpr hndP.2.1
      have hdisj := hndP.2.2
      have hszf : sizeOf f ≤ N := by
        simp only [List.cons.sizeOf_spec] at hsz
        have : 0 < sizeOf fs := by cases fs <;> simp
        omega
      have hszfs : sizeOf fs ≤ N := by
        simp only [List.cons.sizeOf_spec] at hsz
        have : 0 < sizeOf f := by cases f; simp
        omega
      have hhead := walkField_paths_good N ih f hszf pre hndA hok.1 hgood.1
      have htail := ih fs hszfs pre hndB hok.2 hgood.2
      rw [List.map_append]
      constructor
      · rw [List.nodup_append]
        refine ⟨hhead.1, htail.1, ?_⟩
        intro p hp1 hp2
        obtain ⟨o1, ho1, he1⟩ := hhead.2 p hp1
        obtain ⟨o2, ho2, he2⟩ := htail.2 p hp2
        have hok1 : okName o1 = true := List.all_eq_true.mp hok.1 o1 ho1
        have hok2 : okName o2 = true := List.all_eq_true.mp hok.2 o2 ho2
        have : o1 = o2 := pathExt_inj hok1 hok2 he1 he2
        exact hdisj ho1 (this ▸ ho2)
      · intro p hp
        rw [List.mem_append] at hp
        rcases hp with hp | hp
        · obtain ⟨o, ho, he⟩ := hhead.2 p hp
          exact ⟨o, List.mem_append_left _ ho, he⟩
        · obtain ⟨o, ho, he⟩ := htail.2 p hp
          exact ⟨o, List.mem_append_right _ ho, he⟩

/-- C9 (amended): for every registrable type whose flattened external
names are, at every level, pairwise distinct, non-empty and dot-free —
flatten (inline) fields included — the `FieldSpec` paths produced for
one requirement are unique.  (Without that proviso a flattened
subfield's name can collide with a sibling's, producing duplicate
paths.) -/
theorem fieldspec_paths_unique (t : GoType) (pre : String)
    (h : goodT t = true) :
    ((walkStructGo t pre).map FieldSpec.Path).Nodup := by
  cases t with
  | structT n pk fields =>
    rw [goodT, Bool.and_eq_true, Bool.and_eq_true] at h
    exact (walk_paths_good (sizeOf fields) fields (Nat.le_refl _) pre
      h.1.1 h.1.2 h.2).1
  | ptr e =>
    rw [goodT] at h
    cases e with
    | structT n pk fields =>
      rw [goodT, Bool.and_eq_true, Bool.and_eq_true] at h
      exact (walk_paths_good (sizeOf fields) fields (Nat.le_refl _) pre
        h.1.1 h.1.2 h.2).1
    | _ => simp [walkStructGo]
  | _ => simp [walkStructGo]

/-- Witness for the amended C9 at the concrete example type. -/
theorem fieldspec_paths_unique_witness :
    ((walkStructGo exDbType "").map FieldSpec.Path).Nodup :=
  fieldspec_paths_unique exDbType "" (by decide)

/-- C9 counterexample: for the registered type where the flattened
subfield `B.X` shares the external name `x` with its sibling `A`, the
`FieldSpec` list contains two entries with the same path. -/
theorem fieldspec_paths_collide :
    SpecOf exCollideSt exCollideReq =
      .ok [⟨"x", "string", false⟩, ⟨"x", "string", false⟩] ∧
    ¬ ((walkStructGo exCollideType "").map FieldSpec.Path).Nodup :=
  ⟨rfl, by decide⟩

/-! ### Unknown-key scanning (C4) -/

theorem mem_scanEntries (allowed : List (String × GoField)) (pre : String) :
    ∀ (entries : List (String × Yaml)) (s : String),
      (s ∈ scanEntries allowed pre entries ↔
        (∃ kv ∈ entries, lookupLast allowed kv.1 = none ∧ s = joinPath pre kv.1) ∨
        (∃ kv ∈ entries, ∃ f, lookupLast allowed kv.1 = some f ∧
          (∃ n2 p2 fs2, stripPtr f.ftype = GoType.structT n2 p2 fs2) ∧
          s ∈ findUnknownKeys kv.2 (stripPtr f.ftype) (joinPath pre kv.1)))
  | [], s => by simp [scanEntries]
  | (k, v) :: rest, s => by
    rw [scanEntries]
    rw [List.mem_append, mem_scanEntries allowed pre rest s]
    cases hl : lookupLast allowed k with
    | none =>
      dsimp only
      simp only [List.mem_singleton]
      constructor
      · rintro (rfl | h | h)
        · exact Or.inl ⟨(k, v), List.mem_cons_self _ _, hl, rfl⟩
        · obtain ⟨kv, hm, hrest⟩ := h
          exact Or.inl ⟨kv, List.mem_cons_of_mem _ hm, hrest⟩
        · obtain ⟨kv, hm, hrest⟩ := h
          exact Or.inr ⟨kv, List.mem_cons_of_mem _ hm, hrest⟩
      · rintro (⟨kv, hm, hkv⟩ | ⟨kv, hm, hkv⟩)
        · rcases List.mem_cons.mp hm with rfl | hm
          · exact Or.inl hkv.2
          · exact Or.inr (Or.inl ⟨kv, hm, hkv⟩)
        · rcases List.mem_cons.mp hm with rfl | hm
          · rw [hl] at hkv
            obtain ⟨f, hf, _⟩ := hkv
            cases hf
          · exact Or.inr (Or.inr ⟨kv, hm, hkv⟩)
    | some f =>
      dsimp only
      generalize hb : stripPtr f.ftype = tb
      cases tb with
      | structT n2 p2 fs2 =>
        dsimp only
        constructor
        · rintro (h | h | h)
          · exact Or.inr ⟨(k, v), List.mem_cons_self _ _, f, hl,
              ⟨n2, p2, fs2, hb⟩, hb ▸ h⟩
          · obtain ⟨kv, hm, hrest⟩ := h
            exact Or.inl ⟨kv, List.mem_cons_of_mem _ hm, hrest⟩
          · obtain ⟨kv, hm, hrest⟩ := h
            exact Or.inr ⟨kv, List.mem_cons_of_mem _ hm, hrest⟩
        · rintro (⟨kv, hm, hkv⟩ | ⟨kv, hm, hkv⟩)
          · rcases List.mem_cons.mp hm with rfl | hm
            · rw [hl] at hkv
              cases hkv.1
            · exact Or.inr (Or.inl ⟨kv, hm, hkv⟩)
          · rcases List.mem_cons.mp hm with rfl | hm
            · obtain ⟨f2, hf2, hst, hmem⟩ := hkv
              rw [hl] at hf2
              cases hf2
              rw [hb] at hmem
              exact Or.inl hmem
            · exact Or.inr (Or.inr ⟨kv, hm, hkv⟩)
      | prim nm pk kd =>
        dsimp only
        constructor
        · rintro (h | h | h)
          · exact absurd h (List.not_mem_nil s)
          · obtain ⟨kv, hm, hrest⟩ := h
            exact Or.inl ⟨kv, List.mem_cons_of_mem _ hm, hrest⟩
          · obtain ⟨kv, hm, hrest⟩ := h
            exact Or.inr ⟨kv, List.mem_cons_of_mem _ hm, hrest⟩
        · rintro (⟨kv, hm, hkv⟩ | ⟨kv, hm, hkv⟩)
          · rcases List.mem_cons.mp hm with rfl | hm
            · rw [hl] at hkv
              cases hkv.1
            · exact Or.inr (Or.inl ⟨kv, hm, hkv⟩)
          · rcases List.mem_cons.mp hm with rfl | hm
            · obtain ⟨f2, hf2, ⟨n2, p2, fs2, hst⟩, _⟩ := hkv
              rw [hl] at hf2
              cases hf2
              rw [hb] at hst
              cases hst
            · exact Or.inr (Or.inr ⟨kv, hm, hkv⟩)
      | ptr e => exact absurd hb (stripPtr_not_ptr f.ftype e)
      | mapT ms =>
        dsimp only
        constructor
        · rintro (h | h | h)
          · exact absurd h (List.not_mem_nil s)
          · obtain ⟨kv, hm, hrest⟩ := h
            exact Or.inl ⟨kv, List.mem_cons_of_mem _ hm, hrest⟩
          · obtain ⟨kv, hm, hrest⟩ := h
            exact Or.inr ⟨kv, List.mem_cons_of_mem _ hm, hrest⟩
        · rintro (⟨kv, hm, hkv⟩ | ⟨kv, hm, hkv⟩)
          · rcases List.mem_cons.mp hm with rfl | hm
            · rw [hl] at hkv
              cases hkv.1
            · exact Or.inr (Or.inl ⟨kv, hm, hkv⟩)
          · rcases List.mem_cons.mp hm with rfl | hm
            · obtain ⟨f2, hf2, ⟨n2, p2, fs2, hst⟩, _⟩ := hkv
              rw [hl] at hf2
              cases hf2
              rw [hb] at hst
              cases hst
            · exact Or.inr (Or.inr ⟨kv, hm, hkv⟩)
      | sliceT ss =>
        dsimp only
        constructor
        · rintro (h | h | h)
          · exact absurd h (List.not_mem_nil s)
          · obtain ⟨kv, hm, hrest⟩ := h
            exact Or.inl ⟨kv, List.mem_cons_of_mem _ hm, hrest⟩
          · obtain ⟨kv, hm, hrest⟩ := h
            exact Or.inr ⟨kv, List.mem_cons_of_mem _ hm, hrest⟩
        · rintro (⟨kv, hm, hkv⟩ | ⟨kv, hm, hkv⟩)
          · rcases List.mem_cons.mp hm with rfl | hm
            · rw [hl] at hkv
              cases hkv.1
            · exact Or.inr (Or.inl ⟨kv, hm, hkv⟩)
          · rcases List.mem_cons.mp hm with rfl | hm
            · obtain ⟨f2, hf2, ⟨n2, p2, fs2, hst⟩, _⟩ := hkv
              rw [hl] at hf2
              cases hf2
              rw [hb] at hst
              cases hst
            · exact Or.inr (Or.inr ⟨kv, hm, hkv⟩)

theorem lookupLast_none_iff (m : List (String × GoField)) (k : String) :
    lookupLast m k = none ↔ k ∉ m.map Prod.fst := by
  unfold lookupLast
  rw [Option.map_eq_none', List.find?_eq_none]
  constructor
  · intro h hmem
    obtain ⟨x, hx, he⟩ := List.mem_map.mp hmem
    exact h x (List.mem_reverse.mpr hx) (by simp [he])
  · intro h x hx hbeq
    exact h (List.mem_map.mpr ⟨x, List.mem_reverse.mp hx, by simpa using hbeq⟩)

/-- C4 (amended): the unknown-key scan reports nothing unless the raw
subtree is a mapping; on a mapping (under a struct descriptor) it
reports, sorted, exactly the keys absent from the allowed
external-name table — into which flatten fields' names are promoted
unprefixed, but merged only one level deep, not recursively — plus the
recursive results for keys bound to struct-typed fields; fields typed
as free-form maps or sequences are never recursed into. -/
theorem find_unknown_characterization :
    (∀ (y : Yaml) (t : GoType) (pre : String),
      (∀ entries, y ≠ Yaml.map entries) → findUnknownKeys y t pre = []) ∧
    (∀ (y : Yaml) (t : GoType) (pre : String),
      List.Sorted strLEP (findUnknownKeys y t pre)) ∧
    (∀ (m : List (String × GoField)) (k : String),
      (lookupLast m k = none ↔ k ∉ m.map Prod.fst)) ∧
    (∀ (entries : List (String × Yaml)) (t : GoType) (n pk : String)
        (fields : List GoField) (pre s : String),
      stripPtr t = GoType.structT n pk fields →
      (s ∈ findUnknownKeys (Yaml.map entries) t pre ↔
        (∃ kv ∈ entries, lookupLast (buildAllowed fields) kv.1 = none ∧
          s = joinPath pre kv.1) ∨
        (∃ kv ∈ entries, ∃ f, lookupLast (buildAllowed fields) kv.1 = some f ∧
          (∃ n2 p2 fs2, stripPtr f.ftype = GoType.structT n2 p2 fs2) ∧
          s ∈ findUnknownKeys kv.2 (stripPtr f.ftype) (joinPath pre kv.1)))) := by
  refine ⟨?_, ?_, lookupLast_none_iff, ?_⟩
  · intro y t pre hnm
    rw [findUnknownKeys]
    generalize stripPtr t = tb
    cases tb with
    | structT n pk fields =>
      cases y with
      | map entries => exact absurd rfl (hnm entries)
      | null => rfl
      | scalar _ => rfl
      | seq _ => rfl
    | prim _ _ _ => rfl
    | ptr _ => rfl
    | mapT _ => rfl
    | sliceT _ => rfl
  · intro y t pre
    rw [findUnknownKeys]
    generalize stripPtr t = tb
    cases tb with
    | structT n pk fields =>
      cases y with
      | map entries => exact List.sorted_insertionSort strLEP _
      | null => exact List.sorted_nil
      | scalar _ => exact List.sorted_nil
      | seq _ => exact List.sorted_nil
    | prim _ _ _ => exact List.sorted_nil
    | ptr _ => exact List.sorted_nil
    | mapT _ => exact List.sorted_nil
    | sliceT _ => exact List.sorted_nil
  · intro entries t n pk fields pre s hst
    rw [findUnknownKeys, hst]
    dsimp only
    rw [sortStrings, List.mem_insertionSort]
    exact mem_scanEntries (buildAllowed fields) pre entries s

/-- C4 counterexample: with a doubly-flattened type, the key `x`
promoted through two flatten levels is in the spec's recursively-merged
allowed set, yet the scan (which merges one level only) reports it as
unknown. -/
theorem find_unknown_not_recursive_counterexample :
    findUnknownKeys exYamlX exNestedInlineType "" = ["x"] ∧
    specAllowedNames exNestedInlineType = ["x"] :=
  ⟨rfl, rfl⟩

/-! ### Skeleton rendering (C7) -/

/-- C7 (amended): `Skeleton` builds the tree by splitting paths on
dots, renders the top level's keys in sorted order indented two spaces
under the requirement's key when non-root, appends the inline required
marker, and assigns placeholders by kind — the empty string for
`string`, `0` for the integer kinds `int`, `int32`, `int64`, `uint`,
`uint32` and `uint64` (other integer widths fall back to the generic
`<value>` placeholder), `0.0` for floats, `false` for `bool` and a
quoted duration literal for duration kinds.  Nested sub-trees, however,
print on one line in `fmt`'s map form (`key: map[...]`) because the
render switch's recursive case never matches the defined type `node`,
and a path extending another field's path makes the program panic
(modelled as `none`); the spec's flat `db` example still renders
exactly as stated. -/
theorem skeleton_placeholders_and_example :
    (∀ s : FieldSpec, lowerStr s.Typ = "string" → s.Required = false →
      placeholderFor s = "\"\"") ∧
    (∀ s : FieldSpec,
      (lowerStr s.Typ = "int" ∨ lowerStr s.Typ = "int32" ∨
        lowerStr s.Typ = "int64" ∨ lowerStr s.Typ = "uint" ∨
        lowerStr s.Typ = "uint32" ∨ lowerStr s.Typ = "uint64") →
      s.Required = false → placeholderFor s = "0") ∧
    (∀ s : FieldSpec,
      (lowerStr s.Typ = "float32" ∨ lowerStr s.Typ = "float64") →
      s.Required = false → placeholderFor s = "0.0") ∧
    (∀ s : FieldSpec, lowerStr s.Typ = "bool" → s.Required = false →
      placeholderFor s = "false") ∧
    (∀ s : FieldSpec, lowerStr s.Typ = "duration" → s.Required = false →
      placeholderFor s = "\"1s\"") ∧
    (∀ (s : FieldSpec) (ph : String),
      placeholderFor ⟨s.Path, s.Typ, false⟩ = ph → s.Required = true →
      placeholderFor s = ph ++ "  # required") ∧
    (∀ (st : Registry) (req : Requirement) (specs : List FieldSpec)
        (root : List (String × SkNode)),
      SpecOf st req = .ok specs → buildTree specs = some root → req.Key ≠ "" →
      Skeleton st req = some (.ok (req.Key ++ ":\n" ++ renderNode root 2))) ∧
    (∀ (m : List (String × SkNode)) (indent : Nat),
      renderNode m indent = renderEntries (List.insertionSort skLE m) indent ∧
      List.Sorted skLE (List.insertionSort skLE m)) ∧
    (∀ (k : String) (sub rest : List (String × SkNode)) (indent : Nat),
      renderEntries ((k, SkNode.tree sub) :: rest) indent =
        "".pushn ' ' indent ++ k ++ ": " ++ goFmt (SkNode.tree sub) ++ "\n" ++
          renderEntries rest indent) ∧
    (∀ (m : List (String × SkNode)) (seg r1 : String) (rest : List String)
        (ph s : String),
      lookA m seg = some (SkNode.leaf s) →
      insertPath m (seg :: r1 :: rest) ph = none) ∧
    Skeleton exDbSt exDbReq =
      some (.ok "db:\n  host: \"\"  # required\n  port: 0\n") ∧
    Skeleton exNestedSt exNestedReq =
      some (.ok "db:\n  server: map[host:\"\" port:0]\n") := by
  refine ⟨?_, ?_, ?_, ?_, ?_, ?_, ?_, ?_, ?_, ?_, ?_, ?_⟩
  · intro s h hreq
    simp [placeholderFor, h, hreq]
  · intro s h hreq
    rcases h with h | h | h | h | h | h <;> simp [placeholderFor, h, hreq]
  · intro s h hreq
    rcases h with h | h <;> simp [placeholderFor, h, hreq]
  · intro s h hreq
    simp [placeholderFor, h, hreq]
  · intro s h hreq
    simp [placeholderFor, h, hreq]
    rfl
  · intro s ph hph hreq
    simp [placeholderFor] at hph
    simp [placeholderFor, hreq, ← hph]
  · intro st req specs root hspec hbuild hkey
    simp [Skeleton, hspec, hbuild, hkey]
  · intro m indent
    exact ⟨by rw [renderNode], List.sorted_insertionSort skLE m⟩
  · intro k sub rest indent
    rw [renderEntries]
  · intro m seg r1 rest ph s hleaf
    rw [insertPath, hleaf]
    intro h
    exact List.noConfusion h
  · have h0 : SpecOf exDbSt exDbReq =
        .ok [⟨"host", "string", true⟩, ⟨"port", "int", false⟩] := rfl
    have h1 : buildTree [⟨"host", "string", true⟩, ⟨"port", "int", false⟩] =
        some [("host", .leaf "\"\"  # required"), ("port", .leaf "0")] := rfl
    have h2 : List.insertionSort skLE
        [(("host" : String), SkNode.leaf "\"\"  # required"),
         ("port", SkNode.leaf "0")] =
        [("host", .leaf "\"\"  # required"), ("port", .leaf "0")] := rfl
    simp only [Skeleton, h0, h1, renderNode, h2, renderEntries, goFmt]
    rfl
  · have h0 : SpecOf exNestedSt exNestedReq =
        .ok [⟨"server.host", "string", false⟩, ⟨"server.port", "int", false⟩] := rfl
    have h1 : buildTree
        [⟨"server.host", "string", false⟩, ⟨"server.port", "int", false⟩] =
        some [("server",
          .tree [("host", .leaf "\"\""), ("port", .leaf "0")])] := rfl
    have h2 : List.insertionSort skLE
        [(("server" : String),
          SkNode.tree [("host", .leaf "\"\""), ("port", .leaf "0")])] =
        [("server", .tree [("host", .leaf "\"\""), ("port", .leaf "0")])] := rfl
    have h3 : List.insertionSort skLE
        [(("host" : String), SkNode.leaf "\"\""), ("port", SkNode.leaf "0")] =
        [("host", .leaf "\"\""), ("port", .leaf "0")] := rfl
    simp only [Skeleton, h0, h1, renderNode, h2, h3, renderEntries,
      goFmtEntries, goFmt]
    rfl

/-- C7 counterexample: an `int8` field — an integer kind — receives the
generic `<value>` placeholder rather than `0`; a nested sub-tree is
rendered on one line as `server: map[...]` rather than as an indented
block; and prefix-colliding paths make tree building panic rather than
render. -/
theorem skeleton_int8_counterexample :
    placeholderFor ⟨"port", "int8", false⟩ ≠ "0" ∧
    Skeleton exInt8St exInt8Req = some (.ok "db:\n  port: <value>\n") ∧
    Skeleton exNestedSt exNestedReq ≠
      some (.ok "db:\n  server:\n    host: \"\"\n    port: 0\n") ∧
    Skeleton exNestedSt exNestedReq =
      some (.ok "db:\n  server: map[host:\"\" port:0]\n") ∧
    buildTree [⟨"a", "string", false⟩, ⟨"a.b", "string", false⟩] = none := by
  have h0 : SpecOf exNestedSt exNestedReq =
      .ok [⟨"server.host", "string", false⟩, ⟨"server.port", "int", false⟩] := rfl
  have h1 : buildTree
      [⟨"server.host", "string", false⟩, ⟨"server.port", "int", false⟩] =
      some [("server", .tree [("host", .leaf "\"\""), ("port", .leaf "0")])] := rfl
  have h2 : List.insertionSort skLE
      [(("server" : String),
        SkNode.tree [("host", .leaf "\"\""), ("port", .leaf "0")])] =
      [("server", .tree [("host", .leaf "\"\""), ("port", .leaf "0")])] := rfl
  have h3 : List.insertionSort skLE
      [(("host" : String), SkNode.leaf "\"\""), ("port", SkNode.leaf "0")] =
      [("host", .leaf "\"\""), ("port", .leaf "0")] := rfl
  have hrender : Skeleton exNestedSt exNestedReq =
      some (.ok "db:\n  server: map[host:\"\" port:0]\n") := by
    simp only [Skeleton, h0, h1, renderNode, h2, h3, renderEntries,
      goFmtEntries, goFmt]
    rfl
  refine ⟨by decide, ?_, ?_, hrender, rfl⟩
  · have g0 : SpecOf exInt8St exInt8Req = .ok [⟨"port", "int8", false⟩] := rfl
    have g1 : buildTree [⟨"port", "int8", false⟩] =
        some [("port", .leaf "<value>")] := rfl
    have g2 : List.insertionSort skLE [(("port" : String), SkNode.leaf "<value>")] =
        [("port", .leaf "<value>")] := rfl
    simp only [Skeleton, g0, g1, renderNode, g2, renderEntries, goFmt]
    rfl
  · rw [hrender]
    simp

/-! ### Validation path mapping (C5) -/

/-- C6 counterexample: a type whose only field is an excluded
(`yaml:"-"`) struct field is not flattened to the empty list — the
excluded field's subtree is emitted with `-` as a path segment. -/
theorem spec_excluded_struct_counterexample :
    SpecOf exSkipSt exSkipReq = .ok [⟨"-.x", "string", false⟩] ∧
    walkStructGo exSkipStructType "" ≠ [] :=
  ⟨rfl, by decide⟩

/-- Witness for C1 at a concrete provider and registry. -/
theorem check_one_result_per_requirement_witness :
    (Check exProviderNone exDbSt).length = exDbSt.reqs.length ∧
    (∀ cr ∈ Check exProviderNone exDbSt,
      ∃ r ∈ exDbSt.reqs, cr = checkOne exProviderNone r) ∧
    (∀ r ∈ exDbSt.reqs, checkOne exProviderNone r ∈ Check exProviderNone exDbSt) ∧
    (∀ r ∈ exDbSt.reqs,
      ((checkOne exProviderNone r).OK = true ↔
        (exProviderNone.populateErr r.key r.base = none ∧
          (checkOne exProviderNone r).Issues = [] ∧
          (checkOne exProviderNone r).Unknown = []))) ∧
    (∀ r ∈ exDbSt.reqs, ∀ m, exProviderNone.populateErr r.key r.base = some m →
      (checkOne exProviderNone r).Err = some m) :=
  check_one_result_per_requirement exProviderNone exDbSt
    (fun _ _ _ h => Option.noConfusion h)

/-- Witness for C2 at concrete types with distinct signatures. -/
theorem register_dedup_witness :
    registerRequirementType "db" exDbType
        (registerRequirementType "db" exDbType Registry.empty) =
      registerRequirementType "db" exDbType Registry.empty ∧
    Requirements
        (registerRequirementType "db" exDbType
          (registerRequirementType "db" exDbType Registry.empty)) =
      [toRequirement ⟨"db", exDbType, stripPtr exDbType⟩] ∧
    (Requirements
        (registerRequirementType "db" exInt8Type
          (registerRequirementType "db" exDbType Registry.empty))).length = 2 :=
  ⟨(register_dedup_by_key_and_signature Registry.empty "db" exDbType exDbType
      exInt8Type).1,
   (register_dedup_by_key_and_signature Registry.empty "db" exDbType exDbType
      exInt8Type).2.1,
   (register_dedup_by_key_and_signature Registry.empty "db" exDbType exDbType
      exInt8Type).2.2 (by decide)⟩

/-- Witness for C3 at a concrete registry and provider. -/
theorem requirements_sorted_witness :
    List.Sorted reqLE (Requirements exDbSt) ∧
    List.Sorted crLE (Check exProviderNone exDbSt) ∧
    Requirements exDbSt = Requirements exDbSt :=
  requirements_and_check_sorted_deterministic exDbSt exDbSt exProviderNone rfl

/-- Witness for C4 at concrete subtrees. -/
theorem find_unknown_witness :
    findUnknownKeys (Yaml.scalar "v") exDbType "" = [] ∧
    List.Sorted strLEP
      (findUnknownKeys (Yaml.map [("b", Yaml.scalar "1"), ("a", Yaml.scalar "2")])
        exDbType "") ∧
    ("extra" ∈ findUnknownKeys (Yaml.map [("extra", Yaml.scalar "1")]) exDbType "" ↔
      (∃ kv ∈ [("extra", Yaml.scalar "1")],
        lookupLast (buildAllowed
          [.mk "Host" "" "host" "" "required" (.prim "string" "" "string"),
           .mk "Port" "" "port" "" "" (.prim "int" "" "int")]) kv.1 = none ∧
        "extra" = joinPath "" kv.1) ∨
      (∃ kv ∈ [("extra", Yaml.scalar "1")], ∃ f,
        lookupLast (buildAllowed
          [.mk "Host" "" "host" "" "required" (.prim "string" "" "string"),
           .mk "Port" "" "port" "" "" (.prim "int" "" "int")]) kv.1 = some f ∧
        (∃ n2 p2 fs2, stripPtr f.ftype = GoType.structT n2 p2 fs2) ∧
        "extra" ∈ findUnknownKeys kv.2 (stripPtr f.ftype) (joinPath "" kv.1))) :=
  ⟨find_unknown_characterization.1 _ _ _ (fun _ h => Yaml.noConfusion h),
   find_unknown_characterization.2.1 _ _ _,
   find_unknown_characterization.2.2.2 [("extra", Yaml.scalar "1")] exDbType
     "dbConfig" "example.com/pkg"
     [.mk "Host" "" "host" "" "required" (.prim "string" "" "string"),
      .mk "Port" "" "port" "" "" (.prim "int" "" "int")] "" "extra" rfl⟩

/-- Witness for C6's per-field characterization at concrete fields. -/
theorem spec_flatten_witness :
    walkField (GoField.mk "A" "hidden/pkg" "" "" "" (.prim "int" "" "int")) "" = [] ∧
    walkField (GoField.mk "S" "" "-" "" "" (.prim "string" "" "string")) "" = [] ∧
    walkField (GoField.mk "X" "" "x" "" "" (.prim "string" "" "string")) "p" =
      [⟨joinPath "p" "x",
        leafKind (stripPtr (GoType.prim "string" "" "string")),
        hasRequired ""⟩] :=
  ⟨spec_flatten_characterization.2.1 _ "" (by decide),
   spec_flatten_characterization.2.2.2.2.1 _ "" false rfl rfl
     (fun _ _ _ h => GoType.noConfusion h),
   by
     have h := spec_flatten_characterization.2.2.2.2.2
       (GoField.mk "X" "" "x" "" "" (.prim "string" "" "string")) "p" "x" false
       rfl rfl (by decide) (fun _ _ _ h => GoType.noConfusion h)
     simpa using h⟩

/-- Witness for C7's placeholder, panic and rendering rules at
concrete inputs. -/
theorem skeleton_placeholders_witness :
    placeholderFor ⟨"host", "string", false⟩ = "\"\"" ∧
    placeholderFor ⟨"port", "int", false⟩ = "0" ∧
    placeholderFor ⟨"ratio", "float64", false⟩ = "0.0" ∧
    placeholderFor ⟨"flag", "bool", false⟩ = "false" ∧
    placeholderFor ⟨"ttl", "Duration", false⟩ = "\"1s\"" ∧
    placeholderFor ⟨"host", "string", true⟩ = "\"\"" ++ "  # required" ∧
    insertPath [("a", SkNode.leaf "x")] ["a", "b"] "y" = none ∧
    Skeleton exDbSt exDbReq =
      some (.ok "db:\n  host: \"\"  # required\n  port: 0\n") :=
  ⟨skeleton_placeholders_and_example.1 _ rfl rfl,
   skeleton_placeholders_and_example.2.1 _ (Or.inl rfl) rfl,
   skeleton_placeholders_and_example.2.2.1 _ (Or.inr rfl) rfl,
   skeleton_placeholders_and_example.2.2.2.1 _ rfl rfl,
   skeleton_placeholders_and_example.2.2.2.2.1 _ rfl rfl,
   skeleton_placeholders_and_example.2.2.2.2.2.1 _ "\"\"" rfl rfl,
   skeleton_placeholders_and_example.2.2.2.2.2.2.2.2.2.1
     [("a", SkNode.leaf "x")] "a" "b" [] "y" "x" rfl,
   skeleton_placeholders_and_example.2.2.2.2.2.2.2.2.2.2.1⟩

end Configkit
